import Mathlib

/-!
# Teleporter confirmation code: the register routine `sub178b`

A shallow embedding of `sub178b.c`.  The C program keeps three 16-bit
registers, a 16-bit stack pointer and a stack array in globals; the two
routines `sub178b_v2` (with closed forms for `reg0 = 1, 2`) and `sub178b`
(plain recursion) update them in place.  Here the globals are the fields of
`State`, every routine is a state transformer, and the unbounded `for (;;)`
loop together with the self-recursive call is driven by a fuel argument:
`none` means that the fuel ran out before the routine returned.

All quantities are natural numbers; a store into a `uint16_t` that can wrap is
written with an explicit `% 65536`.
-/

namespace Teleporter

/-- The globals of the program: `reg0`, `reg1`, `reg7`, `sp` and `stack`. -/
structure State where
  reg0 : Nat
  reg1 : Nat
  reg7 : Nat
  sp : Nat
  stack : Nat → Nat

/-- Number of entries of the `stack` array (`#define STACK_SIZE 1024 * 1024`). -/
def STACK_SIZE : Nat := 1024 * 1024

/-- Value searched for in `reg0` (`#define TARGET 6`). -/
def TARGET : Nat := 6

/-- The globals at program start: C zero-initialises them. -/
def initState : State :=
  { reg0 := 0, reg1 := 0, reg7 := 0, sp := 0, stack := fun _ => 0 }

/-- Post-increment of a `uint16_t`: the value stored back by `x++`. -/
@[irreducible] def inc16 (x : Nat) : Nat := (x + 1) % 65536

/-- Decrement of a `uint16_t`: the value stored back by `x--`, and the value
of `x - 1` (computed in `int`) once it is stored into a `uint16_t`; that is
`x - 1` modulo 65536, written with the constant first. -/
@[irreducible] def dec16 (x : Nat) : Nat := (65535 + x) % 65536

/-- The statement `reg0 = (reg1 + 1) & 0x7fff;`. -/
def setResult (s : State) : State :=
  { s with reg0 := (s.reg1 + 1) &&& 0x7fff }

/-- The statements `stack[sp++] = reg0; reg1--;` that precede a recursive call. -/
def enter (s : State) : State :=
  { s with
    stack := fun i => if i = s.sp then s.reg0 else s.stack i
    sp := inc16 s.sp
    reg1 := dec16 s.reg1 }

/-- The statements `reg1 = reg0; reg0 = stack[--sp] - 1;` that follow a
recursive call. -/
def leave (t : State) : State :=
  { t with
    reg1 := t.reg0
    sp := dec16 t.sp
    reg0 := dec16 (t.stack (dec16 t.sp)) }

/-- The routine `sub178b_v2`.  One unit of fuel is spent per loop iteration;
the recursive call and the rest of the loop each get the remaining fuel.
The sums are computed in `int` by the C code and are modelled over the
naturals.  For 16-bit operands `reg1 + 1` and `reg1 + reg7` are at most 131070
and cannot overflow; `reg1 + (reg1 + 2) * reg7` stays below `2 ^ 31` when
`reg1` and `reg7` are below 32768, while for larger operands the C expression
can overflow, a case that this definition does not describe.  The index of
every stack access is a value of the 16-bit `sp`, hence below `STACK_SIZE`. -/
def sub178b_v2 : Nat → State → Option State
  | 0, _ => none
  | fuel + 1, s =>
    if s.reg0 = 0 then
      some (setResult s)
    else if s.reg0 = 1 then
      some (setResult { s with reg1 := (s.reg1 + s.reg7) &&& 0x7fff })
    else if s.reg0 = 2 then
      some (setResult { s with reg1 := (s.reg1 + (s.reg1 + 2) * s.reg7) &&& 0x7fff })
    else if s.reg1 = 0 then
      sub178b_v2 fuel { s with reg0 := dec16 s.reg0, reg1 := s.reg7 }
    else
      match sub178b_v2 fuel (enter s) with
      | none => none
      | some t => sub178b_v2 fuel (leave t)

/-- The routine `sub178b`: the same loop without the closed forms. -/
def sub178b : Nat → State → Option State
  | 0, _ => none
  | fuel + 1, s =>
    if s.reg0 = 0 then
      some { s with reg0 := (s.reg1 + 1) &&& 0x7fff }
    else if s.reg1 = 0 then
      sub178b fuel { s with reg0 := dec16 s.reg0, reg1 := s.reg7 }
    else
      match sub178b fuel (enter s) with
      | none => none
      | some t => sub178b fuel (leave t)

/-- The globals as `calculate` sets them before it calls the routine. -/
def setup (r0 r1 r7 : Nat) (s : State) : State :=
  { s with sp := 0, reg0 := r0, reg1 := r1, reg7 := r7 }

/-- The function `calculate(r0, r1, r7)`, run from the globals `s`. -/
def calculate (fuel r0 r1 r7 : Nat) (s : State) : Option State :=
  sub178b_v2 fuel (setup r0 r1 r7 s)

/-- The value of `reg0` after `calculate(a, b, c)` run from the globals `s`. -/
def evaluate (fuel a b c : Nat) (s : State) : Option Nat :=
  (calculate fuel a b c s).map State.reg0

/-- What `main` does that can be observed: the banner it prints, the calls of
`calculate` it makes, and the lines it prints for the matches. -/
inductive Event where
  | banner : Event
  | call (r0 r1 r7 : Nat) : Event
  | report (init0 init1 init7 r0 r1 : Nat) : Event

/-- The loop `for (r7 = 1; r7 < 32768; r7++)` of `main`, entered with the loop
variable `r7` and the globals `s`: the events of the remaining iterations and
the final globals.  Every call of `calculate` gets the fuel `fuel`. -/
def mainLoop (fuel r7 : Nat) (s : State) : Option (List Event × State) :=
  if r7 < 32768 then
    match calculate fuel 4 1 r7 s with
    | none => none
    | some t =>
      match mainLoop fuel (inc16 r7) t with
      | none => none
      | some (rest, u) =>
        if t.reg0 = TARGET then
          some (Event.call 4 1 r7 :: Event.report 4 1 r7 t.reg0 t.reg1 :: rest, u)
        else
          some (Event.call 4 1 r7 :: rest, u)
  else
    some ([], s)
termination_by 32768 - r7
decreasing_by
  rename_i h
  unfold inc16
  omega

/-- The events of a run that are printed lines for a match. -/
def reports (evs : List Event) : List Event :=
  evs.filter fun e =>
    match e with
    | Event.report _ _ _ _ _ => true
    | _ => false

/-- The function `main`, run from the zero-initialised globals. -/
def main (fuel : Nat) : Option (List Event × State) :=
  match mainLoop fuel 1 initState with
  | none => none
  | some (evs, u) => some (Event.banner :: evs, u)

/-! ## What the routine computes on `reg0 = 2, 3, 4, 5`

Read off the code of `sub178b_v2`: on `reg0 = 2` the closed form and the exit
leave `level2 c x` in `reg0`; on `reg0 = a + 1 ≥ 3` and `reg1 = b` the loop
runs the level below `b + 1` times, starting from `reg7`, provided every pop
returns the value that was pushed. -/

/-- The value left in `reg0` on entry with `reg0 = 2`, `reg1 = x`, `reg7 = c`. -/
def level2 (c x : Nat) : Nat := (((x + (x + 2) * c) &&& 0x7fff) + 1) &&& 0x7fff

/-- The value left in `reg0` on entry with `reg0 = 3`, `reg1 = b`, `reg7 = c`. -/
def level3 (c b : Nat) : Nat := (level2 c)^[b + 1] c

/-- The value left in `reg0` on entry with `reg0 = 4`, `reg1 = b`, `reg7 = c`,
as long as the stack does not overwrite itself. -/
def level4 (c b : Nat) : Nat := (level3 c)^[b + 1] c

/-- The value that the recursive rule gives for `reg0 = 5`, `reg1 = b`,
`reg7 = c`. -/
def level5 (c b : Nat) : Nat := (level4 c)^[b + 1] c

/-- The sum `1 + q + ... + q ^ (n - 1)`. -/
def geom (q : Nat) : Nat → Nat
  | 0 => 0
  | n + 1 => q * geom q n + 1

/-! ## Definitions for checking by evaluation

The definitions of this section are written with the functions `Nat.add`,
`Nat.mul`, ... applied directly, so that closed instances evaluate quickly. -/

/-- The power `q ^ n` modulo `m`, computed from two small powers. -/
def powMod (q n m : Nat) : Nat :=
  Nat.mod (Nat.mul (Nat.mod (Nat.pow q (Nat.mod n 256)) m)
    (Nat.mod (Nat.pow (Nat.mod (Nat.pow q 256) m) (Nat.div n 256)) m)) m

/-- Closed form of `level3` for `c ≥ 1`: `level2 c` is the affine map
`x ↦ (c + 1) * x + (2 * c + 1)` modulo 32768, iterated `y + 1` times from `c`;
`p` stands for `(c + 1) ^ (y + 1)` modulo `c * 32768`. -/
def level3Aux (c p : Nat) : Nat :=
  Nat.mod (Nat.add (Nat.mul (Nat.mod p 32768) c)
    (Nat.mul (Nat.add (Nat.mul 2 c) 1)
      (Nat.div (Nat.mod (Nat.sub (Nat.add p (Nat.mul c 32768)) 1) (Nat.mul c 32768)) c)))
    32768

/-- Closed form of `level3` for `c ≥ 1`. -/
def level3Fast (c y : Nat) : Nat :=
  level3Aux c (powMod (Nat.add c 1) (Nat.add y 1) (Nat.mul c 32768))

/-- Candidate `c` passes the check when "`level3Fast c (level3Fast c c)` is 6"
holds exactly for `c = 25734`. -/
def searchOK (c : Nat) : Bool :=
  cond (Nat.beq c 25734)
    (Nat.beq (level3Fast c (level3Fast c c)) 6)
    (not (Nat.beq (level3Fast c (level3Fast c c)) 6))

/-- All the candidates `lo, lo + 1, ..., lo + 2 ^ d - 1` pass the check. -/
def checkTree : Nat → Nat → Bool
  | 0, lo => searchOK lo
  | d + 1, lo => and (checkTree d lo) (checkTree d (Nat.add lo (Nat.pow 2 d)))

/-- Iteration of `f` that evaluates each value before it goes on. -/
def iterS (f : Nat → Nat) : Nat → Nat → Nat
  | 0, x => x
  | n + 1, x =>
    match f x with
    | 0 => iterS f n 0
    | y + 1 => iterS f n (y + 1)

/-! ## Predicates on runs -/

/-- What every returning run of `sub178b_v2` guarantees, whatever the depth of
the recursion: the stack pointer and `reg7` are restored, `reg0` is the masked
successor of `reg1`, and every stack entry is either untouched or holds a
value between 3 and the initial `reg0`. -/
def Post (s t : State) : Prop :=
  t.sp = s.sp ∧ t.reg7 = s.reg7 ∧ t.reg0 = (t.reg1 + 1) % 32768 ∧
  (s.reg0 ≠ 0 → t.reg1 < 32768) ∧ (s.reg0 = 0 → t.reg1 = s.reg1) ∧
  ∀ i, t.stack i = s.stack i ∨ (3 ≤ t.stack i ∧ t.stack i ≤ s.reg0)

/-- Two states with the same registers and stack pointer. -/
def SameRegs (s t : State) : Prop :=
  s.reg0 = t.reg0 ∧ s.reg1 = t.reg1 ∧ s.reg7 = t.reg7 ∧ s.sp = t.sp

/-- The stack entries outside the `D` slots that follow the stack pointer of
`s` (cyclically, the stack pointer being a 16-bit index) are the same in `t`. -/
def Frame (D : Nat) (s t : State) : Prop :=
  ∀ i, (∀ j, j < D → i ≠ (s.sp + j) % 65536) → t.stack i = s.stack i

/-! ## Observing a run

The final globals do not show what happens during a run: how far the stack
pointer goes, which values are popped, what the operands of the decrements
are.  `along p q` follows the run of `sub178b_v2` and checks `p` on the globals
at the start of every loop iteration of every invocation, and `q s t` at every
pop, `s` being the globals at the start of the iteration that pushed and `t`
the globals when the recursive call has returned (just before
`reg1 = reg0; reg0 = stack[--sp] - 1;`). -/

/-- All the checks `p` and `q` made along the run with fuel `fuel` succeed. -/
def along (p : State → Bool) (q : State → State → Bool) : Nat → State → Bool
  | 0, _ => true
  | fuel + 1, s =>
    p s &&
    (if s.reg0 = 0 then true
    else if s.reg0 = 1 then true
    else if s.reg0 = 2 then true
    else if s.reg1 = 0 then
      along p q fuel { s with reg0 := dec16 s.reg0, reg1 := s.reg7 }
    else
      along p q fuel (enter s) &&
        match sub178b_v2 fuel (enter s) with
        | none => true
        | some t => q s t && along p q fuel (leave t))

/-- No check at the start of an iteration. -/
def anyHead (_ : State) : Bool := true

/-- No check at a pop. -/
def anyPop (_ _ : State) : Bool := true

/-- The decrement made by this iteration before any call (`reg0--` when
`reg1 == 0`, `reg1--` otherwise, none when `reg0` is 0, 1 or 2) is applied to
a positive value. -/
def headDecOK (s : State) : Bool :=
  if s.reg0 = 0 then true
  else if s.reg0 = 1 then true
  else if s.reg0 = 2 then true
  else if s.reg1 = 0 then decide (0 < s.reg0)
  else decide (0 < s.reg1)

/-- The `- 1` of `reg0 = stack[--sp] - 1` is applied to a positive value. -/
def popValueDecOK (_ t : State) : Bool := decide (0 < t.stack (dec16 t.sp))

/-- Both decrements of `reg0 = stack[--sp] - 1` are applied to positive
values: the stack pointer and the popped value. -/
def popDecOK (s t : State) : Bool := decide (0 < t.sp) && popValueDecOK s t

/-- The stack pointer is at most 32768, hence a valid index of `stack`. -/
def spBounded (s : State) : Bool := decide (s.sp ≤ 32768) && decide (s.sp < STACK_SIZE)

/-- The pop does not wrap the stack pointer and reads inside `stack`. -/
def popInBounds (_ t : State) : Bool := decide (0 < t.sp) && decide (dec16 t.sp < STACK_SIZE)

/-- When the branch `reg0 == 2` is taken, `reg1` and `reg7` are below 32768 and
the sum of the closed form is below `2 ^ 31`. -/
def closedFormExact (s : State) : Bool :=
  if s.reg0 = 2 then
    decide (s.reg1 < 32768) && decide (s.reg7 < 32768) &&
      decide (s.reg1 + (s.reg1 + 2) * s.reg7 < 2 ^ 31)
  else true

/-- An iteration that pushes does so with `sp` below 65535, so that `sp++`
does not wrap. -/
def pushNoWrap (s : State) : Bool :=
  if s.reg0 = 0 then true
  else if s.reg0 = 1 then true
  else if s.reg0 = 2 then true
  else if s.reg1 = 0 then true
  else decide (s.sp < 65535)

/-- The value read by the pop is the value that the iteration pushed. -/
def popsPushed (s t : State) : Bool := decide (t.stack (dec16 t.sp) = s.reg0)

/-! ## Basic facts -/

theorem mask15 (x : Nat) : x &&& 0x7fff = x % 32768 :=
  Nat.and_pow_two_sub_one_eq_mod x 15

theorem sub178b_v2_fuel_succ : ∀ (n : Nat) (s t : State),
    sub178b_v2 n s = some t → sub178b_v2 (n + 1) s = some t := by
  intro n
  induction n with
  | zero => intro s t h; simp [sub178b_v2] at h
  | succ n ih =>
    intro s t h
    rw [sub178b_v2] at h
    rw [sub178b_v2]
    split_ifs at h ⊢ with h0 h1 h2 h3
    · exact h
    · exact h
    · exact h
    · exact ih _ _ h
    · cases hc : sub178b_v2 n (enter s) with
      | none => rw [hc] at h; simp at h
      | some u =>
        rw [hc] at h
        rw [ih _ _ hc]
        exact ih _ _ h

theorem sub178b_v2_fuel_mono {n m : Nat} {s t : State} (hnm : n ≤ m)
    (h : sub178b_v2 n s = some t) : sub178b_v2 m s = some t := by
  induction hnm with
  | refl => exact h
  | step _ ih => exact sub178b_v2_fuel_succ _ _ _ ih

theorem sub178b_v2_det {n m : Nat} {s t u : State}
    (h1 : sub178b_v2 n s = some t) (h2 : sub178b_v2 m s = some u) : t = u := by
  have a1 := sub178b_v2_fuel_mono (Nat.le_max_left n m) h1
  have a2 := sub178b_v2_fuel_mono (Nat.le_max_right n m) h2
  rw [a1] at a2
  exact Option.some.inj a2

/-! ## One loop iteration of `sub178b_v2` -/

theorem v2_zero (n : Nat) (s : State) (h : s.reg0 = 0) :
    sub178b_v2 (n + 1) s = some (setResult s) := by
  rw [sub178b_v2, if_pos h]

theorem v2_one (n : Nat) (s : State) (h : s.reg0 = 1) :
    sub178b_v2 (n + 1) s
      = some (setResult { s with reg1 := (s.reg1 + s.reg7) &&& 0x7fff }) := by
  rw [sub178b_v2, if_neg (by omega), if_pos h]

theorem v2_two (n : Nat) (s : State) (h : s.reg0 = 2) :
    sub178b_v2 (n + 1) s
      = some (setResult
          { s with reg1 := (s.reg1 + (s.reg1 + 2) * s.reg7) &&& 0x7fff }) := by
  rw [sub178b_v2, if_neg (by omega), if_neg (by omega), if_pos h]

theorem v2_dec (n : Nat) (s : State) (h : 3 ≤ s.reg0) (hb : s.reg1 = 0) :
    sub178b_v2 (n + 1) s
      = sub178b_v2 n { s with reg0 := dec16 s.reg0, reg1 := s.reg7 } := by
  rw [sub178b_v2, if_neg (by omega), if_neg (by omega), if_neg (by omega), if_pos hb]

theorem v2_call (n : Nat) (s t : State) (h : 3 ≤ s.reg0) (hb : s.reg1 ≠ 0)
    (hc : sub178b_v2 n (enter s) = some t) :
    sub178b_v2 (n + 1) s = sub178b_v2 n (leave t) := by
  rw [sub178b_v2, if_neg (by omega), if_neg (by omega), if_neg (by omega), if_neg hb, hc]

/-- A call that returns can be followed by the rest of the loop: the fuel of
both parts is raised to their maximum. -/
theorem v2_call_then {n m : Nat} {s t u : State} (h : 3 ≤ s.reg0) (hb : s.reg1 ≠ 0)
    (hc : sub178b_v2 n (enter s) = some t) (hr : sub178b_v2 m (leave t) = some u) :
    sub178b_v2 (max n m + 1) s = some u := by
  rw [v2_call _ s t h hb (sub178b_v2_fuel_mono (Nat.le_max_left n m) hc)]
  exact sub178b_v2_fuel_mono (Nat.le_max_right n m) hr

/-! ## Totality -/

theorem v2_total_small (s : State) (h : s.reg0 ≤ 2) :
    ∃ t, sub178b_v2 1 s = some t ∧ Post s t := by
  by_cases c0 : s.reg0 = 0
  · exact ⟨_, v2_zero 0 s c0, rfl, rfl, mask15 _, fun h => absurd c0 h, fun _ => rfl,
      fun i => Or.inl rfl⟩
  by_cases c1 : s.reg0 = 1
  · exact ⟨_, v2_one 0 s c1, rfl, rfl, mask15 _,
      fun _ => (mask15 _).trans_lt (Nat.mod_lt _ (by norm_num)), fun h => absurd h c0,
      fun i => Or.inl rfl⟩
  · exact ⟨_, v2_two 0 s (by omega), rfl, rfl, mask15 _,
      fun _ => (mask15 _).trans_lt (Nat.mod_lt _ (by norm_num)), fun h => absurd h c0,
      fun i => Or.inl rfl⟩

theorem v2_total (a : Nat) : ∀ (b : Nat) (s : State), s.reg0 = a → s.reg1 = b →
    a < 65536 → b < 65536 → s.reg7 < 65536 → s.sp < 65536 →
    ∃ n t, sub178b_v2 n s = some t ∧ Post s t := by
  induction a using Nat.strong_induction_on with
  | _ a iha =>
    intro b
    induction b with
    | zero =>
      intro s h0 h1 ha _ h7 hsp
      by_cases c2 : a ≤ 2
      · obtain ⟨t, h, hp⟩ := v2_total_small s (by omega)
        exact ⟨1, t, h, hp⟩
      have hd : dec16 s.reg0 = a - 1 := by unfold dec16; omega
      obtain ⟨n, t, hrun, hp⟩ := iha (a - 1) (by omega) s.reg7
        { s with reg0 := dec16 s.reg0, reg1 := s.reg7 } hd rfl (by omega) h7 h7 hsp
      refine ⟨n + 1, t, ?_, ?_⟩
      · rw [v2_dec n s (by omega) h1]; exact hrun
      · obtain ⟨p1, p2, p3, p4, _, p6⟩ := hp
        refine ⟨p1, p2, p3, fun _ => p4 ?_, fun h => by omega, fun i => ?_⟩
        · show dec16 s.reg0 ≠ 0
          omega
        rcases p6 i with h | ⟨h, h'⟩
        · exact Or.inl h
        · right
          have h'' : t.stack i ≤ dec16 s.reg0 := h'
          omega
    | succ b ihb =>
      intro s h0 h1 ha hb h7 hsp
      by_cases c2 : a ≤ 2
      · obtain ⟨t, h, hp⟩ := v2_total_small s (by omega)
        exact ⟨1, t, h, hp⟩
      -- the recursive call
      have he1 : (enter s).reg1 = b := by
        show dec16 s.reg1 = b
        unfold dec16; omega
      have he2 : (enter s).sp < 65536 := by
        show inc16 s.sp < 65536
        unfold inc16; omega
      have hb' : b < 65536 := by omega
      obtain ⟨n1, t1, hrun1, q1, q2, q3, q4, _, q6⟩ :=
        ihb (enter s) h0 he1 ha hb' h7 he2
      -- the value popped after the call
      have hsp1 : dec16 t1.sp = s.sp := by
        rw [q1]
        show dec16 (inc16 s.sp) = s.sp
        unfold inc16 dec16; omega
      have hpop : 3 ≤ t1.stack s.sp ∧ t1.stack s.sp ≤ a := by
        rcases q6 s.sp with h | h
        · rw [h]
          show 3 ≤ (if s.sp = s.sp then s.reg0 else s.stack s.sp) ∧
            (if s.sp = s.sp then s.reg0 else s.stack s.sp) ≤ a
          rw [if_pos rfl]; omega
        · have h' : 3 ≤ t1.stack s.sp ∧ t1.stack s.sp ≤ s.reg0 := h
          omega
      have hr1 : t1.reg1 < 32768 := q4 (by show s.reg0 ≠ 0; omega)
      have hl0 : (leave t1).reg0 = t1.stack s.sp - 1 := by
        show dec16 (t1.stack (dec16 t1.sp)) = _
        rw [hsp1]; unfold dec16; omega
      have hl7 : (leave t1).reg7 = s.reg7 := q2
      have hlsp : (leave t1).sp = s.sp := hsp1
      obtain ⟨n2, t2, hrun2, r1, r2, r3, r4, _, r6⟩ := iha (t1.stack s.sp - 1) (by omega)
        t1.reg0 (leave t1) hl0 rfl (by omega) (by rw [q3]; omega)
        (by rw [hl7]; exact h7) (by rw [hlsp]; exact hsp)
      refine ⟨max n1 n2 + 1, t2, v2_call_then (by omega) (by omega) hrun1 hrun2, ?_⟩
      refine ⟨r1.trans hlsp, r2.trans hl7, r3, fun _ => r4 (by rw [hl0]; omega),
        fun h => by omega, fun i => ?_⟩
      rcases r6 i with h | ⟨h, h'⟩
      · have h2 : t2.stack i = t1.stack i := h
        rcases q6 i with g | g
        · have g2 : t1.stack i = if i = s.sp then s.reg0 else s.stack i := g
          by_cases hi : i = s.sp
          · right; rw [h2, g2, if_pos hi]; omega
          · left; rw [h2, g2, if_neg hi]
        · right; rw [h2]; exact g
      · right; rw [hl0] at h'; omega

/-! ## The result does not depend on the stack contents -/

theorem inc16_lt (x : Nat) : inc16 x < 65536 := by
  unfold inc16; omega

theorem dec16_inc16 (x : Nat) (h : x < 65536) : dec16 (inc16 x) = x := by
  unfold inc16 dec16; omega

/-- A returning run restores the stack pointer. -/
theorem v2_sp : ∀ (n : Nat) (s t : State), s.sp < 65536 →
    sub178b_v2 n s = some t → t.sp = s.sp := by
  intro n
  induction n with
  | zero => intro s t _ h; simp [sub178b_v2] at h
  | succ n ih =>
    intro s t hsp h
    rw [sub178b_v2] at h
    split_ifs at h with h0 h1 h2 h3
    · cases h; rfl
    · cases h; rfl
    · cases h; rfl
    · exact ih { s with reg0 := dec16 s.reg0, reg1 := s.reg7 } t hsp h
    · cases hc : sub178b_v2 n (enter s) with
      | none => rw [hc] at h; simp at h
      | some u =>
        rw [hc] at h
        have hu : u.sp = inc16 s.sp := ih _ _ (inc16_lt _) hc
        have hl : (leave u).sp = s.sp := by
          show dec16 u.sp = s.sp
          rw [hu, dec16_inc16 _ hsp]
        rw [ih _ _ (by rw [hl]; exact hsp) h, hl]

theorem v2_pure : ∀ (n : Nat) (s t s' : State), SameRegs s t → s.sp < 65536 →
    sub178b_v2 n s = some s' →
    ∃ t', sub178b_v2 n t = some t' ∧ SameRegs s' t' ∧
      ∀ i, s'.stack i = t'.stack i ∨ (s'.stack i = s.stack i ∧ t'.stack i = t.stack i) := by
  intro n
  induction n with
  | zero => intro s t s' _ _ h; simp [sub178b_v2] at h
  | succ n ih =>
    intro s t s' hst hsp h
    obtain ⟨e0, e1, e7, esp⟩ := hst
    by_cases h0 : s.reg0 = 0
    · rw [v2_zero n s h0] at h
      cases h
      refine ⟨_, v2_zero n t (e0 ▸ h0), ⟨?_, e1, e7, esp⟩, fun i => Or.inr ⟨rfl, rfl⟩⟩
      show (s.reg1 + 1) &&& 0x7fff = (t.reg1 + 1) &&& 0x7fff
      rw [e1]
    by_cases h1 : s.reg0 = 1
    · rw [v2_one n s h1] at h
      cases h
      refine ⟨_, v2_one n t (e0 ▸ h1), ⟨?_, ?_, e7, esp⟩, fun i => Or.inr ⟨rfl, rfl⟩⟩
      · show (((s.reg1 + s.reg7) &&& 0x7fff) + 1) &&& 0x7fff
          = (((t.reg1 + t.reg7) &&& 0x7fff) + 1) &&& 0x7fff
        rw [e1, e7]
      · show (s.reg1 + s.reg7) &&& 0x7fff = (t.reg1 + t.reg7) &&& 0x7fff
        rw [e1, e7]
    by_cases h2 : s.reg0 = 2
    · rw [v2_two n s h2] at h
      cases h
      refine ⟨_, v2_two n t (e0 ▸ h2), ⟨?_, ?_, e7, esp⟩, fun i => Or.inr ⟨rfl, rfl⟩⟩
      · show (((s.reg1 + (s.reg1 + 2) * s.reg7) &&& 0x7fff) + 1) &&& 0x7fff
          = (((t.reg1 + (t.reg1 + 2) * t.reg7) &&& 0x7fff) + 1) &&& 0x7fff
        rw [e1, e7]
      · show (s.reg1 + (s.reg1 + 2) * s.reg7) &&& 0x7fff
          = (t.reg1 + (t.reg1 + 2) * t.reg7) &&& 0x7fff
        rw [e1, e7]
    have h3 : 3 ≤ s.reg0 := by omega
    have h3' : 3 ≤ t.reg0 := e0 ▸ h3
    by_cases hb : s.reg1 = 0
    · rw [v2_dec n s h3 hb] at h
      rw [v2_dec n t h3' (e1 ▸ hb)]
      exact ih { s with reg0 := dec16 s.reg0, reg1 := s.reg7 }
        { t with reg0 := dec16 t.reg0, reg1 := t.reg7 } s'
        ⟨congrArg dec16 e0, e7, e7, esp⟩ hsp h
    · cases hc : sub178b_v2 n (enter s) with
      | none =>
        rw [sub178b_v2, if_neg h0, if_neg h1, if_neg h2, if_neg hb, hc] at h
        simp at h
      | some u =>
        rw [v2_call n s u h3 hb hc] at h
        have hent : SameRegs (enter s) (enter t) :=
          ⟨e0, congrArg dec16 e1, e7, congrArg inc16 esp⟩
        obtain ⟨u', hu', ⟨f0, f1, f7, fsp⟩, fst⟩ :=
          ih _ (enter t) u hent (inc16_lt _) hc
        have husp : dec16 u.sp = s.sp := by
          rw [v2_sp n _ _ (inc16_lt _) hc]
          exact dec16_inc16 _ hsp
        rw [v2_call n t u' h3' (e1 ▸ hb) hu']
        -- both runs pop the same value
        have hpop : u.stack (dec16 u.sp) = u'.stack (dec16 u'.sp) := by
          rw [← fsp]
          rcases fst (dec16 u.sp) with g | ⟨g, g'⟩
          · exact g
          · rw [g, g']
            show (if dec16 u.sp = s.sp then s.reg0 else s.stack (dec16 u.sp))
              = (if dec16 u.sp = t.sp then t.reg0 else t.stack (dec16 u.sp))
            rw [if_pos husp, if_pos (husp.trans esp)]
            exact e0
        have hlv : SameRegs (leave u) (leave u') :=
          ⟨congrArg dec16 hpop, f0, f7, congrArg dec16 fsp⟩
        obtain ⟨t', ht', hregs, gst⟩ :=
          ih _ (leave u') s' hlv (by show dec16 u.sp < 65536; rw [husp]; exact hsp) h
        refine ⟨t', ht', hregs, fun i => ?_⟩
        rcases gst i with g | ⟨g, g'⟩
        · exact Or.inl g
        · have g2 : s'.stack i = u.stack i := g
          have g2' : t'.stack i = u'.stack i := g'
          rcases fst i with k | ⟨k, k'⟩
          · left; rw [g2, g2', k]
          · have k2 : u.stack i = if i = s.sp then s.reg0 else s.stack i := k
            have k2' : u'.stack i = if i = t.sp then t.reg0 else t.stack i := k'
            rw [g2, g2', k2, k2', ← esp, ← e0]
            by_cases hi : i = s.sp
            · left; rw [if_pos hi, if_pos hi]
            · right; rw [if_neg hi, if_neg hi]; exact ⟨rfl, rfl⟩

/-! ## `calculate`: totality, independence of the previous globals -/

theorem calculate_total (a b c : Nat) (ha : a < 32768) (hb : b < 32768) (hc : c < 32768)
    (s : State) : ∃ n t, calculate n a b c s = some t ∧ Post (setup a b c s) t :=
  v2_total a b (setup a b c s) rfl rfl (by omega) (by omega)
    (show c < 65536 by omega) (show 0 < 65536 by omega)

theorem calculate_pure {n a b c : Nat} {s t : State} (s' : State)
    (h : calculate n a b c s = some t) :
    ∃ t', calculate n a b c s' = some t' ∧ t.reg0 = t'.reg0 ∧ t.reg1 = t'.reg1 := by
  obtain ⟨t', h', ⟨e0, e1, _, _⟩, _⟩ :=
    v2_pure n (setup a b c s) (setup a b c s') t ⟨rfl, rfl, rfl, rfl⟩
      (show 0 < 65536 by omega) h
  exact ⟨t', h', e0, e1⟩

theorem evaluate_of_calculate {n a b c : Nat} {s t : State}
    (h : calculate n a b c s = some t) : evaluate n a b c s = some t.reg0 := by
  unfold evaluate; rw [h]; rfl

theorem evaluate_mono {n m a b c v : Nat} {s : State} (hnm : n ≤ m)
    (h : evaluate n a b c s = some v) : evaluate m a b c s = some v := by
  unfold evaluate at h ⊢
  cases hc : calculate n a b c s with
  | none => rw [hc] at h; simp at h
  | some t =>
    rw [hc] at h
    have := sub178b_v2_fuel_mono hnm hc
    unfold calculate
    rw [this]; exact h

/-- The value of `reg0` that a run leaves is the same for every amount of
fuel that lets it return, and for every content of the globals before. -/
theorem evaluate_det {n m a b c v w : Nat} {s s' : State}
    (h1 : evaluate n a b c s = some v) (h2 : evaluate m a b c s' = some w) : v = w := by
  unfold evaluate at h1 h2
  cases hc : calculate n a b c s with
  | none => rw [hc] at h1; simp at h1
  | some t =>
    cases hd : calculate m a b c s' with
    | none => rw [hd] at h2; simp at h2
    | some u =>
      rw [hc] at h1; rw [hd] at h2
      obtain ⟨t', ht', e0, _⟩ := calculate_pure s' hc
      have := sub178b_v2_det ht' hd
      simp only [Option.map_some', Option.some.injEq] at h1 h2
      rw [← h1, ← h2, e0, this]

/-! ## The closed forms for `reg0 = 0, 1, 2` -/

theorem calculate_0 (n b c : Nat) (s : State) :
    calculate (n + 1) 0 b c s = some (setResult (setup 0 b c s)) :=
  v2_zero n _ rfl

theorem calculate_1 (n b c : Nat) (s : State) :
    calculate (n + 1) 1 b c s
      = some (setResult { setup 1 b c s with reg1 := (b + c) &&& 0x7fff }) :=
  v2_one n _ rfl

theorem calculate_2 (n b c : Nat) (s : State) :
    calculate (n + 1) 2 b c s
      = some (setResult { setup 2 b c s with reg1 := (b + (b + 2) * c) &&& 0x7fff }) :=
  v2_two n _ rfl

theorem evaluate_0 (n b c : Nat) (s : State) :
    evaluate (n + 1) 0 b c s = some ((b + 1) % 32768) := by
  rw [evaluate_of_calculate (calculate_0 n b c s)]
  exact congrArg some (mask15 _)

theorem evaluate_1 (n b c : Nat) (s : State) :
    evaluate (n + 1) 1 b c s = some ((b + c + 1) % 32768) := by
  rw [evaluate_of_calculate (calculate_1 n b c s)]
  refine congrArg some ?_
  show (((b + c) &&& 0x7fff) + 1) &&& 0x7fff = _
  rw [mask15, mask15]; omega

theorem evaluate_2 (n b c : Nat) (s : State) :
    evaluate (n + 1) 2 b c s = some ((b + (b + 2) * c + 1) % 32768) := by
  rw [evaluate_of_calculate (calculate_2 n b c s)]
  refine congrArg some ?_
  show (((b + (b + 2) * c) &&& 0x7fff) + 1) &&& 0x7fff = _
  rw [mask15, mask15]; omega

/-- C3: for every `b, c` in `[0, 32768)`, `calculate(0, b, c)` leaves
`reg0 = (b + 1) mod 32768`, whatever the globals were before and for every
positive amount of fuel; in particular `reg0 = 0` when `b = 32767`. -/
theorem calculate_zero_leaves_succ (b c : Nat) (_hb : b < 32768) (_hc : c < 32768)
    (s : State) (n : Nat) :
    evaluate (n + 1) 0 b c s = some ((b + 1) % 32768) ∧
    (b = 32767 → evaluate (n + 1) 0 b c s = some 0) := by
  refine ⟨evaluate_0 n b c s, fun h => ?_⟩
  rw [evaluate_0, h]

theorem calculate_zero_leaves_succ_witness :
    evaluate (0 + 1) 0 32767 5 initState = some ((32767 + 1) % 32768) ∧
    (32767 = 32767 → evaluate (0 + 1) 0 32767 5 initState = some 0) :=
  calculate_zero_leaves_succ 32767 5 (by decide) (by decide) initState 0

/-- C8, as stated, fails: `calculate(1, 3, 5)` leaves `reg0 = 9`, and no amount
of fuel makes it leave `(3 + 5) mod 32768 = 8`. -/
theorem calculate_one_not_sum :
    evaluate 1 1 3 5 initState = some 9 ∧
    ¬ ∃ n, evaluate n 1 3 5 initState = some ((3 + 5) % 32768) := by
  have h9 : evaluate 1 1 3 5 initState = some 9 := evaluate_1 0 3 5 initState
  refine ⟨h9, ?_⟩
  rintro ⟨n, hn⟩
  have := evaluate_det h9 hn
  omega

/-- C8, amended: for every `b, c` in `[0, 32768)`, `calculate(1, b, c)` leaves
`reg0 = (b + c + 1) mod 32768` (and `reg1 = (b + c) mod 32768`); for example
`calculate(1, 3, 5)` leaves `reg0 = 9`. -/
theorem calculate_one_leaves_sum_succ (b c : Nat) (_hb : b < 32768) (_hc : c < 32768)
    (s : State) (n : Nat) :
    evaluate (n + 1) 1 b c s = some ((b + c + 1) % 32768) ∧
    (calculate (n + 1) 1 b c s).map State.reg1 = some ((b + c) % 32768) := by
  refine ⟨evaluate_1 n b c s, ?_⟩
  rw [calculate_1]
  exact congrArg some (mask15 _)

theorem calculate_one_leaves_sum_succ_witness :
    evaluate (0 + 1) 1 3 5 initState = some ((3 + 5 + 1) % 32768) ∧
    (calculate (0 + 1) 1 3 5 initState).map State.reg1 = some ((3 + 5) % 32768) :=
  calculate_one_leaves_sum_succ 3 5 (by decide) (by decide) initState 0

/-- C9, as stated, fails: `calculate(2, 0, 1)` leaves `reg0 = 3`, never
`(2 * 1) mod 32768 = 2`. -/
theorem calculate_two_zero_not_double :
    evaluate 1 2 0 1 initState = some 3 ∧
    ¬ ∃ n, evaluate n 2 0 1 initState = some ((2 * 1) % 32768) := by
  have h3 : evaluate 1 2 0 1 initState = some 3 := evaluate_2 0 0 1 initState
  refine ⟨h3, ?_⟩
  rintro ⟨n, hn⟩
  have := evaluate_det h3 hn
  omega

/-- C9, amended: for every `c` in `[0, 32768)`, `calculate(2, 0, c)` and
`calculate(1, c, c)` leave the same `reg0`, and that value is
`(2 * c + 1) mod 32768`. -/
theorem calculate_two_zero_eq_one (c : Nat) (_hc : c < 32768) (s s' : State) (n m : Nat) :
    evaluate (n + 1) 2 0 c s = evaluate (m + 1) 1 c c s' ∧
    evaluate (n + 1) 2 0 c s = some ((2 * c + 1) % 32768) := by
  rw [evaluate_2, evaluate_1]
  refine ⟨congrArg some ?_, congrArg some ?_⟩ <;> omega

theorem calculate_two_zero_eq_one_witness :
    evaluate (0 + 1) 2 0 7 initState = evaluate (0 + 1) 1 7 7 initState ∧
    evaluate (0 + 1) 2 0 7 initState = some ((2 * 7 + 1) % 32768) :=
  calculate_two_zero_eq_one 7 (by decide) initState initState 0 0

/-! ## The rule for a zero second argument, totality, range of the result -/

theorem dec16_pos (x : Nat) (h0 : 0 < x) (h : x < 65536) : dec16 x = x - 1 := by
  unfold dec16; omega

/-- C2: for every `a, c` in `[0, 32768)` with `a > 0`, `calculate(a, 0, c)` and
`calculate(a - 1, c, c)` both return and leave the same `reg0`, whatever the
globals were before each call. -/
theorem calculate_zero_second_arg (a c : Nat) (ha0 : 0 < a) (ha : a < 32768)
    (hc : c < 32768) (s s' : State) :
    ∃ n v, evaluate n a 0 c s = some v ∧ evaluate n (a - 1) c c s' = some v := by
  by_cases h1 : a = 1
  · subst h1
    refine ⟨1, (c + 1) % 32768, ?_, evaluate_0 0 c c s'⟩
    rw [evaluate_1]; exact congrArg some (by omega)
  by_cases h2 : a = 2
  · subst h2
    refine ⟨1, (c + c + 1) % 32768, ?_, evaluate_1 0 c c s'⟩
    rw [evaluate_2]; exact congrArg some (by omega)
  obtain ⟨n, t, hrun, _⟩ := calculate_total (a - 1) c c (by omega) hc hc s'
  obtain ⟨t', hrun', e0, _⟩ := calculate_pure s hrun
  have hstep : calculate (n + 1) a 0 c s = some t' := by
    unfold calculate
    rw [v2_dec n (setup a 0 c s) (show 3 ≤ a by omega) rfl]
    show sub178b_v2 n (State.mk (dec16 a) c c 0 s.stack) = some t'
    rw [dec16_pos a ha0 (by omega)]
    exact hrun'
  refine ⟨n + 1, t.reg0, ?_, ?_⟩
  · rw [evaluate_of_calculate hstep, e0]
  · exact evaluate_mono (Nat.le_succ n) (evaluate_of_calculate hrun)

theorem calculate_zero_second_arg_witness :
    ∃ n v, evaluate n 4 0 7 initState = some v ∧ evaluate n (4 - 1) 7 7 initState = some v :=
  calculate_zero_second_arg 4 7 (by decide) (by decide) (by decide) initState initState

/-- C5: for every `a, b, c` in `[0, 32768)`, `calculate(a, b, c)` returns: some
amount of fuel lets the loop and all the recursive calls of `sub178b_v2`
finish, and every larger amount gives the same final globals. -/
theorem calculate_terminates (a b c : Nat) (ha : a < 32768) (hb : b < 32768)
    (hc : c < 32768) (s : State) :
    ∃ n t, calculate n a b c s = some t ∧ ∀ m, n ≤ m → calculate m a b c s = some t := by
  obtain ⟨n, t, hrun, _⟩ := calculate_total a b c ha hb hc s
  exact ⟨n, t, hrun, fun m hm => sub178b_v2_fuel_mono hm hrun⟩

theorem calculate_terminates_witness :
    ∃ n t, calculate n 4 1 25734 initState = some t ∧
      ∀ m, n ≤ m → calculate m 4 1 25734 initState = some t :=
  calculate_terminates 4 1 25734 (by decide) (by decide) (by decide) initState

/-- C6: for every `a, b, c` in `[0, 32768)`, `calculate(a, b, c)` returns with
`reg0` in `[0, 32768)`; a final sum `reg1 + 1` equal to 32768 is stored as 0,
and so are the sums `b + c` (for `a = 1`) and `b + (b + 2) * c` (for `a = 2`)
stored into `reg1`. -/
theorem calculate_result_in_range (a b c : Nat) (ha : a < 32768) (hb : b < 32768)
    (hc : c < 32768) (s : State) :
    ∃ n t, calculate n a b c s = some t ∧ t.reg0 < 32768 ∧
      (t.reg1 + 1 = 32768 → t.reg0 = 0) ∧
      (a = 0 → b + 1 = 32768 → t.reg0 = 0) ∧
      (a = 1 → b + c = 32768 → t.reg1 = 0) ∧
      (a = 2 → b + (b + 2) * c = 32768 → t.reg1 = 0) := by
  obtain ⟨n, t, hrun, _, _, p3, _, p5, _⟩ := calculate_total a b c ha hb hc s
  have hn : 0 < n := by
    rcases n with _ | n
    · simp [calculate, sub178b_v2] at hrun
    · omega
  obtain ⟨k, rfl⟩ : ∃ k, n = k + 1 := ⟨n - 1, by omega⟩
  refine ⟨k + 1, t, hrun, by omega, fun h => by omega, fun h0 h => ?_, fun h1 h => ?_,
    fun h2 h => ?_⟩
  · have : t.reg1 = b := p5 h0
    omega
  · subst h1
    rw [calculate_1] at hrun
    cases hrun
    show (b + c) &&& 0x7fff = 0
    rw [mask15, h]
  · subst h2
    rw [calculate_2] at hrun
    cases hrun
    show (b + (b + 2) * c) &&& 0x7fff = 0
    rw [mask15, h]

theorem calculate_result_in_range_witness :
    ∃ n t, calculate n 1 32767 1 initState = some t ∧ t.reg0 < 32768 ∧
      (t.reg1 + 1 = 32768 → t.reg0 = 0) ∧
      (1 = 0 → 32767 + 1 = 32768 → t.reg0 = 0) ∧
      (1 = 1 → 32767 + 1 = 32768 → t.reg1 = 0) ∧
      (1 = 2 → 32767 + (32767 + 2) * 1 = 32768 → t.reg1 = 0) :=
  calculate_result_in_range 1 32767 1 (by decide) (by decide) (by decide) initState

/-! ## Stack frames -/

theorem frame_mono {D D' : Nat} {s t : State} (h : D ≤ D') (hf : Frame D s t) :
    Frame D' s t :=
  fun i hi => hf i (fun j hj => hi j (by omega))

/-- A call that stays within fewer than 65536 slots leaves the pushed value in
place, so the pop reads it back. -/
theorem pop_of_frame {D : Nat} {s u : State} (hD : D < 65536)
    (hf : Frame D (enter s) u) : u.stack s.sp = s.reg0 := by
  have h1 : u.stack s.sp = (enter s).stack s.sp := by
    apply hf
    intro j hj
    show s.sp ≠ (inc16 s.sp + j) % 65536
    unfold inc16; omega
  rw [h1]
  show (if s.sp = s.sp then s.reg0 else s.stack s.sp) = s.reg0
  rw [if_pos rfl]

/-- Frame of a whole loop iteration with a recursive call: the push, the call
(within `D1` slots above the push) and the rest of the loop (within `D2`). -/
theorem frame_call {D1 D2 D : Nat} {s u t : State} (hsp : s.sp < 65536)
    (h1 : Frame D1 (enter s) u) (hl : (leave u).sp = s.sp) (h2 : Frame D2 (leave u) t)
    (hD1 : D1 + 1 ≤ D) (hD2 : D2 ≤ D) : Frame D s t := by
  intro i hi
  have a2 : t.stack i = (leave u).stack i := by
    apply h2
    intro j hj
    rw [hl]
    exact hi j (by omega)
  have a1 : u.stack i = (enter s).stack i := by
    apply h1
    intro j hj
    have := hi (j + 1) (by omega)
    show i ≠ (inc16 s.sp + j) % 65536
    unfold inc16; omega
  have a0 : (enter s).stack i = s.stack i := by
    show (if i = s.sp then s.reg0 else s.stack i) = s.stack i
    have := hi 0 (by omega)
    rw [if_neg (by omega)]
  rw [a2, ← a0, ← a1]
  rfl

/-! ## The routine `sub178b` on `reg0 = 0, 1, 2` -/

theorem sub178b_fuel_succ : ∀ (n : Nat) (s t : State),
    sub178b n s = some t → sub178b (n + 1) s = some t := by
  intro n
  induction n with
  | zero => intro s t h; simp [sub178b] at h
  | succ n ih =>
    intro s t h
    rw [sub178b] at h
    rw [sub178b]
    split_ifs at h ⊢ with h0 h1
    · exact h
    · exact ih _ _ h
    · cases hc : sub178b n (enter s) with
      | none => rw [hc] at h; simp at h
      | some u =>
        rw [hc] at h
        rw [ih _ _ hc]
        exact ih _ _ h

theorem sub178b_fuel_mono {n m : Nat} {s t : State} (hnm : n ≤ m)
    (h : sub178b n s = some t) : sub178b m s = some t := by
  induction hnm with
  | refl => exact h
  | step _ ih => exact sub178b_fuel_succ _ _ _ ih

theorem brute_zero (n : Nat) (s : State) (h : s.reg0 = 0) :
    sub178b (n + 1) s = some { s with reg0 := (s.reg1 + 1) &&& 0x7fff } := by
  rw [sub178b, if_pos h]

theorem brute_dec (n : Nat) (s : State) (h : s.reg0 ≠ 0) (hb : s.reg1 = 0) :
    sub178b (n + 1) s = sub178b n { s with reg0 := dec16 s.reg0, reg1 := s.reg7 } := by
  rw [sub178b, if_neg h, if_pos hb]

theorem brute_call_then {n m : Nat} {s t u : State} (h : s.reg0 ≠ 0) (hb : s.reg1 ≠ 0)
    (hc : sub178b n (enter s) = some t) (hr : sub178b m (leave t) = some u) :
    sub178b (max n m + 1) s = some u := by
  rw [sub178b, if_neg h, if_neg hb, sub178b_fuel_mono (Nat.le_max_left n m) hc]
  exact sub178b_fuel_mono (Nat.le_max_right n m) hr

theorem dec16_one : dec16 1 = 0 := by unfold dec16; rfl

theorem dec16_two : dec16 2 = 1 := by unfold dec16; rfl

/-- The plain recursion on `reg0 = 1`: `b` nested calls, each adding one. -/
theorem brute_one : ∀ (b : Nat) (s : State), s.reg0 = 1 → s.reg1 = b → b < 65536 →
    s.reg7 < 32768 → s.sp < 65536 →
    ∃ n t, sub178b n s = some t ∧ t.reg0 = (b + s.reg7 + 1) % 32768 ∧
      t.reg1 = (b + s.reg7) % 32768 ∧ t.sp = s.sp ∧ t.reg7 = s.reg7 ∧ Frame b s t := by
  intro b
  induction b with
  | zero =>
    intro s h0 h1 _ h7 hsp
    have hrun : sub178b 2 s
        = some { s with reg0 := (s.reg7 + 1) &&& 0x7fff, reg1 := s.reg7 } := by
      rw [brute_dec 1 s (by omega) h1,
        brute_zero 0 _ (by show dec16 s.reg0 = 0; rw [h0, dec16_one])]
    refine ⟨2, _, hrun, ?_, ?_, rfl, rfl, fun i _ => rfl⟩
    · show (s.reg7 + 1) &&& 0x7fff = _
      rw [mask15]; omega
    · show s.reg7 = _
      omega
  | succ b ih =>
    intro s h0 h1 hb h7 hsp
    have he1 : (enter s).reg1 = b := by
      show dec16 s.reg1 = b
      rw [h1, dec16_pos _ (by omega) hb]; rfl
    obtain ⟨n1, u, hrun1, u0, _, usp, u7, uf⟩ :=
      ih (enter s) h0 he1 (by omega) h7 (inc16_lt _)
    have hpop : u.stack s.sp = 1 := (pop_of_frame (by omega) uf).trans h0
    have hlsp : (leave u).sp = s.sp := by
      show dec16 u.sp = s.sp
      rw [usp]; exact dec16_inc16 _ hsp
    have hl0 : (leave u).reg0 = 0 := by
      show dec16 (u.stack (dec16 u.sp)) = 0
      rw [show dec16 u.sp = s.sp from hlsp, hpop, dec16_one]
    have u7' : u.reg7 = s.reg7 := u7
    have u0' : u.reg0 = (b + s.reg7 + 1) % 32768 := u0
    refine ⟨max n1 1 + 1, _, brute_call_then (by omega) (by omega) hrun1
      (brute_zero 0 (leave u) hl0), ?_, ?_, hlsp, u7', ?_⟩
    · show ((leave u).reg1 + 1) &&& 0x7fff = _
      rw [mask15, show (leave u).reg1 = u.reg0 from rfl, u0']; omega
    · show u.reg0 = _
      rw [u0']; omega
    · exact frame_call hsp uf hlsp (fun i _ => rfl) (Nat.le_refl _) (Nat.zero_le _)

/-- The plain recursion on `reg0 = 2`. -/
theorem brute_two : ∀ (b : Nat) (s : State), s.reg0 = 2 → s.reg1 = b → b < 32768 →
    s.reg7 < 32768 → s.sp < 65536 →
    ∃ n t, sub178b n s = some t ∧ t.reg0 = (b + (b + 2) * s.reg7 + 1) % 32768 ∧
      t.reg1 = (b + (b + 2) * s.reg7) % 32768 ∧ t.sp = s.sp ∧ t.reg7 = s.reg7 ∧
      Frame (b + 32768) s t := by
  intro b
  induction b with
  | zero =>
    intro s h0 h1 _ h7 hsp
    obtain ⟨n, t, hrun, t0, t1, tsp, t7, tf⟩ :=
      brute_one s.reg7 { s with reg0 := dec16 s.reg0, reg1 := s.reg7 }
        (by show dec16 s.reg0 = 1; rw [h0, dec16_two]) rfl (by omega) h7 hsp
    refine ⟨n + 1, t, ?_, ?_, ?_, tsp, t7, ?_⟩
    · rw [brute_dec n s (by omega) h1]; exact hrun
    · rw [t0]
      show (s.reg7 + s.reg7 + 1) % 32768 = _
      omega
    · rw [t1]
      show (s.reg7 + s.reg7) % 32768 = _
      omega
    · exact frame_mono (by omega) (show Frame s.reg7 s t from tf)
  | succ b ih =>
    intro s h0 h1 hb h7 hsp
    have he1 : (enter s).reg1 = b := by
      show dec16 s.reg1 = b
      rw [h1, dec16_pos _ (by omega) (by omega)]; rfl
    obtain ⟨n1, u, hrun1, u0, _, usp, u7, uf⟩ :=
      ih (enter s) h0 he1 (by omega) h7 (inc16_lt _)
    have hpop : u.stack s.sp = 2 := (pop_of_frame (by omega) uf).trans h0
    have hlsp : (leave u).sp = s.sp := by
      show dec16 u.sp = s.sp
      rw [usp]; exact dec16_inc16 _ hsp
    have hl0 : (leave u).reg0 = 1 := by
      show dec16 (u.stack (dec16 u.sp)) = 1
      rw [show dec16 u.sp = s.sp from hlsp, hpop, dec16_two]
    have u7' : u.reg7 = s.reg7 := u7
    have u0' : u.reg0 = (b + (b + 2) * s.reg7 + 1) % 32768 := u0
    obtain ⟨n2, t, hrun2, t0, t1, tsp, t7, tf⟩ :=
      brute_one u.reg0 (leave u) hl0 rfl (by rw [u0']; omega) (by rw [show (leave u).reg7 = s.reg7 from u7']; exact h7)
        (by rw [hlsp]; exact hsp)
    have hring : (b + 1 + 2) * s.reg7 = (b + 2) * s.reg7 + s.reg7 := by ring
    have l7 : (leave u).reg7 = s.reg7 := u7'
    refine ⟨max n1 n2 + 1, t, brute_call_then (by omega) (by omega) hrun1 hrun2, ?_, ?_,
      tsp.trans hlsp, t7.trans l7, ?_⟩
    · rw [t0, l7, u0', hring]; omega
    · rw [t1, l7, u0', hring]; omega
    · refine frame_call hsp uf hlsp tf (by omega) ?_
      rw [u0']; omega

/-- C10: for every `a` in `{0, 1, 2}` and every `b, c` in `[0, 32768)`, the
routines `sub178b_v2` and `sub178b`, run from the same globals with
`reg0 = a`, `reg1 = b`, `reg7 = c`, `sp = 0`, both return and end with the same
`reg0` and the same `reg1`. -/
theorem v2_agrees_with_brute (a b c : Nat) (ha : a ≤ 2) (hb : b < 32768) (hc : c < 32768)
    (s : State) :
    ∃ n t u, sub178b_v2 n (setup a b c s) = some t ∧ sub178b n (setup a b c s) = some u ∧
      t.reg0 = u.reg0 ∧ t.reg1 = u.reg1 := by
  have hsp : (setup a b c s).sp < 65536 := show 0 < 65536 by omega
  rcases (show a = 0 ∨ a = 1 ∨ a = 2 by omega) with h | h | h
  · subst h
    exact ⟨1, _, _, v2_zero 0 _ rfl, brute_zero 0 _ rfl, rfl, rfl⟩
  · subst h
    obtain ⟨n, u, hrun, u0, u1, _⟩ := brute_one b (setup 1 b c s) rfl rfl (by omega) hc hsp
    refine ⟨n + 1, _, u, v2_one n _ rfl, sub178b_fuel_succ _ _ _ hrun, ?_, ?_⟩
    · rw [u0]
      show (((b + c) &&& 0x7fff) + 1) &&& 0x7fff = (b + c + 1) % 32768
      rw [mask15, mask15]; omega
    · rw [u1]
      exact mask15 _
  · subst h
    obtain ⟨n, u, hrun, u0, u1, _⟩ := brute_two b (setup 2 b c s) rfl rfl hb hc hsp
    refine ⟨n + 1, _, u, v2_two n _ rfl, sub178b_fuel_succ _ _ _ hrun, ?_, ?_⟩
    · rw [u0]
      show (((b + (b + 2) * c) &&& 0x7fff) + 1) &&& 0x7fff = (b + (b + 2) * c + 1) % 32768
      rw [mask15, mask15]; omega
    · rw [u1]
      exact mask15 _

theorem v2_agrees_with_brute_witness :
    ∃ n t u, sub178b_v2 n (setup 2 50 50 initState) = some t ∧
      sub178b n (setup 2 50 50 initState) = some u ∧ t.reg0 = u.reg0 ∧ t.reg1 = u.reg1 :=
  v2_agrees_with_brute 2 50 50 (by decide) (by decide) (by decide) initState

/-! ## The search loop of `main` -/

/-- One amount of fuel lets `calculate(4, 1, c)` return for all the candidates
below `k`, whatever the globals before the call. -/
theorem search_fuel : ∀ k : Nat, ∃ N, ∀ c, c < k → c < 32768 →
    ∀ s : State, ∃ t, calculate N 4 1 c s = some t := by
  intro k
  induction k with
  | zero => exact ⟨0, fun c h => absurd h (Nat.not_lt_zero c)⟩
  | succ k ih =>
    obtain ⟨N, hN⟩ := ih
    by_cases hk : k < 32768
    · obtain ⟨n, t, hrun, _⟩ :=
        calculate_total 4 1 k (by omega) (by omega) hk initState
      refine ⟨max N n, fun c hc hc' s => ?_⟩
      by_cases hck : c = k
      · subst hck
        obtain ⟨t', ht', _⟩ := calculate_pure s hrun
        exact ⟨t', sub178b_v2_fuel_mono (Nat.le_max_right N n) ht'⟩
      · obtain ⟨t', ht'⟩ := hN c (by omega) hc' s
        exact ⟨t', sub178b_v2_fuel_mono (Nat.le_max_left N n) ht'⟩
    · refine ⟨N, fun c hc hc' s => hN c (by omega) hc' s⟩

theorem inc16_small (x : Nat) (h : x < 32768) : inc16 x = x + 1 := by
  unfold inc16; omega

/-- The loop of `main` entered with `r7`: it calls `calculate(4, 1, c)` for
`c = r7, r7 + 1, ..., 32767` in this order, and after each call prints a line
exactly when the call left `reg0 = TARGET`. -/
theorem mainLoop_trace (N : Nat) (r0 r1 : Nat → Nat)
    (hres : ∀ c, c < 32768 → ∀ (s t : State), calculate N 4 1 c s = some t →
      t.reg0 = r0 c ∧ t.reg1 = r1 c)
    (hN : ∀ c, 1 ≤ c → c < 32768 → ∀ s : State, ∃ t, calculate N 4 1 c s = some t) :
    ∀ (k r7 : Nat) (s : State), 1 ≤ r7 → r7 + k = 32768 →
    ∃ u, mainLoop N r7 s = some ((List.range' r7 k).flatMap (fun c =>
      Event.call 4 1 c ::
        if r0 c = TARGET then [Event.report 4 1 c (r0 c) (r1 c)] else []), u) := by
  intro k
  induction k with
  | zero =>
    intro r7 s _ h
    refine ⟨s, ?_⟩
    rw [mainLoop, if_neg (by omega)]
    rfl
  | succ k ih =>
    intro r7 s h1 h
    have hlt : r7 < 32768 := by omega
    obtain ⟨t, ht⟩ := hN r7 h1 hlt s
    obtain ⟨e0, e1⟩ := hres r7 hlt s t ht
    obtain ⟨u, hu⟩ := ih (r7 + 1) t (by omega) (by omega)
    refine ⟨u, ?_⟩
    rw [mainLoop, if_pos hlt, ht]
    simp only [inc16_small r7 hlt, hu, e0, e1, List.range'_succ, List.flatMap_cons]
    by_cases hm : r0 r7 = TARGET
    · simp [hm]
    · simp [hm]

/-- The whole run of `main`, in terms of what each call of `calculate` leaves. -/
theorem main_trace : ∃ (N : Nat) (r0 r1 : Nat → Nat) (u : State),
    (∀ c, 1 ≤ c → c < 32768 → ∀ (s t : State) (n : Nat),
      calculate n 4 1 c s = some t → t.reg0 = r0 c ∧ t.reg1 = r1 c) ∧
    (∀ c, 1 ≤ c → c < 32768 → ∀ s : State, ∃ t, calculate N 4 1 c s = some t) ∧
    main N = some (Event.banner :: (List.range' 1 32767).flatMap (fun c =>
      Event.call 4 1 c ::
        if r0 c = TARGET then [Event.report 4 1 c (r0 c) (r1 c)] else []), u) := by
  obtain ⟨N, hN⟩ := search_fuel 32768
  -- what the call for candidate `c` leaves, read off a run from the initial globals
  let res : Nat → Nat × Nat := fun c =>
    match calculate N 4 1 c initState with
    | some t => (t.reg0, t.reg1)
    | none => (0, 0)
  have hres : ∀ c, c < 32768 → ∀ (s t : State) (n : Nat),
      calculate n 4 1 c s = some t → t.reg0 = (res c).1 ∧ t.reg1 = (res c).2 := by
    intro c hc s t n ht
    obtain ⟨t0, ht0⟩ := hN c hc hc initState
    obtain ⟨t', ht', e0, e1⟩ := calculate_pure s ht0
    have := sub178b_v2_det ht ht'
    have hr : res c = (t0.reg0, t0.reg1) := by
      show (match calculate N 4 1 c initState with
        | some t => (t.reg0, t.reg1)
        | none => (0, 0)) = _
      rw [ht0]
    rw [hr, this, e0, e1]
    exact ⟨rfl, rfl⟩
  obtain ⟨u, hu⟩ := mainLoop_trace N (fun c => (res c).1) (fun c => (res c).2)
    (fun c hc s t ht => hres c hc s t N ht) (fun c _ hc s => hN c hc hc s)
    32767 1 initState (by omega) (by omega)
  refine ⟨N, fun c => (res c).1, fun c => (res c).2, u,
    fun c _ hc s t n ht => hres c hc s t n ht, fun c _ hc s => hN c hc hc s, ?_⟩
  unfold main
  rw [hu]

/-- C7: `main` prints its banner and then calls `calculate(4, 1, c)` for exactly
`c = 1, 2, ..., 32767`, once each and in increasing order (never for 32768,
and without stopping at a match); right after the call for `c` it prints the
line `(4, 1, c, reg0, reg1)` if and only if that call left `reg0 = 6`.  Here
`r0 c` and `r1 c` are the values of `reg0` and `reg1` that `calculate(4, 1, c)`
leaves, from any globals and with any sufficient fuel. -/
theorem main_search_trace : ∃ (N : Nat) (r0 r1 : Nat → Nat) (u : State),
    (∀ c, 1 ≤ c → c < 32768 → ∀ (s t : State) (n : Nat),
      calculate n 4 1 c s = some t → t.reg0 = r0 c ∧ t.reg1 = r1 c) ∧
    (∀ c, 1 ≤ c → c < 32768 → ∀ s : State, ∃ t, calculate N 4 1 c s = some t) ∧
    main N = some (Event.banner :: (List.range' 1 32767).flatMap (fun c =>
      Event.call 4 1 c ::
        if r0 c = TARGET then [Event.report 4 1 c (r0 c) (r1 c)] else []), u) :=
  main_trace

/-! ## The routine on `reg0 = 3` and `reg0 = 4` -/

theorem level2_lt (c x : Nat) : level2 c x < 32768 := by
  unfold level2; rw [mask15]; omega

theorem level3_succ (c b : Nat) : level3 c (b + 1) = level2 c (level3 c b) :=
  Function.iterate_succ_apply' _ _ _

theorem level3_zero (c : Nat) : level3 c 0 = level2 c c := rfl

theorem level3_lt (c b : Nat) : level3 c b < 32768 := by
  cases b with
  | zero => exact level2_lt c c
  | succ b => rw [level3_succ]; exact level2_lt _ _

theorem level4_succ (c b : Nat) : level4 c (b + 1) = level3 c (level4 c b) :=
  Function.iterate_succ_apply' _ _ _

theorem level4_zero (c : Nat) : level4 c 0 = level3 c c := rfl

theorem level4_lt (c b : Nat) : level4 c b < 32768 := by
  cases b with
  | zero => exact level3_lt c c
  | succ b => rw [level4_succ]; exact level3_lt _ _

theorem dec16_three : dec16 3 = 2 := by unfold dec16; rfl

theorem dec16_four : dec16 4 = 3 := by unfold dec16; rfl

theorem dec16_five : dec16 5 = 4 := by unfold dec16; rfl

theorem enter_stack (s : State) (i : Nat) :
    (enter s).stack i = if i = s.sp then s.reg0 else s.stack i := rfl

/-- One run on `reg0 = 2`: the closed form and the exit. -/
theorem v2_level2 (n : Nat) (s : State) (h : s.reg0 = 2) :
    ∃ t, sub178b_v2 (n + 1) s = some t ∧ t.reg0 = level2 s.reg7 s.reg1 ∧
      t.sp = s.sp ∧ t.reg7 = s.reg7 ∧ t.stack = s.stack :=
  ⟨_, v2_two n s h, rfl, rfl, rfl, rfl⟩

/-- The routine on `reg0 = 3`, `reg1 = b`: it leaves `level3 reg7 b`, pushes
`b` threes on the slots that follow the stack pointer and touches nothing else. -/
theorem v2_level3 : ∀ (b : Nat) (s : State), s.reg0 = 3 → s.reg1 = b → b < 65536 →
    s.sp < 65536 →
    ∃ n t, sub178b_v2 n s = some t ∧ t.reg0 = level3 s.reg7 b ∧ t.sp = s.sp ∧
      t.reg7 = s.reg7 ∧ Frame b s t ∧ (∀ i, t.stack i = s.stack i ∨ t.stack i = 3) ∧
      ∀ j, j < b → t.stack ((s.sp + j) % 65536) = 3 := by
  intro b
  induction b with
  | zero =>
    intro s h0 h1 _ hsp
    obtain ⟨t, hrun, t0, tsp, t7, tst⟩ :=
      v2_level2 0 { s with reg0 := dec16 s.reg0, reg1 := s.reg7 }
        (by show dec16 s.reg0 = 2; rw [h0, dec16_three])
    refine ⟨2, t, ?_, t0, tsp, t7, fun i _ => by rw [tst], fun i => Or.inl (by rw [tst]),
      fun j hj => absurd hj (Nat.not_lt_zero j)⟩
    rw [v2_dec 1 s (by omega) h1]; exact hrun
  | succ b ih =>
    intro s h0 h1 hb hsp
    have he1 : (enter s).reg1 = b := by
      show dec16 s.reg1 = b
      rw [h1, dec16_pos _ (by omega) hb]; rfl
    obtain ⟨n1, u, hrun1, u0, usp, u7, uf, uv, ufill⟩ :=
      ih (enter s) h0 he1 (by omega) (inc16_lt _)
    have hlsp : (leave u).sp = s.sp := by
      show dec16 u.sp = s.sp
      rw [usp]; exact dec16_inc16 _ hsp
    have hpop : u.stack s.sp = 3 := by
      rcases uv s.sp with h | h
      · rw [h]
        show (if s.sp = s.sp then s.reg0 else s.stack s.sp) = 3
        rw [if_pos rfl, h0]
      · exact h
    have hl0 : (leave u).reg0 = 2 := by
      show dec16 (u.stack (dec16 u.sp)) = 2
      rw [show dec16 u.sp = s.sp from hlsp, hpop, dec16_three]
    have u7' : u.reg7 = s.reg7 := u7
    have u0' : u.reg0 = level3 s.reg7 b := u0
    obtain ⟨t, hrun2, t0, tsp, t7, tst⟩ := v2_level2 0 (leave u) hl0
    have tst' : t.stack = u.stack := tst
    refine ⟨max n1 1 + 1, t, v2_call_then (by omega) (by omega) hrun1 hrun2, ?_,
      tsp.trans hlsp, t7.trans u7', ?_, ?_, ?_⟩
    · rw [t0, level3_succ, ← u0']
      show level2 u.reg7 u.reg0 = _
      rw [u7']
    · exact frame_call hsp uf hlsp (fun i _ => by rw [tst]) (Nat.le_refl _) (Nat.zero_le _)
    · intro i
      rw [tst']
      rcases uv i with h | h
      · rw [h, enter_stack]
        by_cases hi : i = s.sp
        · right; rw [if_pos hi, h0]
        · left; rw [if_neg hi]
      · exact Or.inr h
    · intro j hj
      rw [tst']
      rcases j with _ | j
      · rw [Nat.add_zero, Nat.mod_eq_of_lt hsp]; exact hpop
      · have := ufill j (by omega)
        have hidx : ((enter s).sp + j) % 65536 = (s.sp + (j + 1)) % 65536 := by
          show (inc16 s.sp + j) % 65536 = _
          unfold inc16; omega
        rw [← hidx]; exact this

/-- The routine on `reg0 = 4`, `reg1 = b`, when the recursion stays within `D`
slots (at most 65536): it leaves `level4 reg7 b`, touches only the `D` slots
that follow the stack pointer, writes only threes and, on the first `b` of
these slots, fours, and leaves threes on the `reg7` slots after the first `b`. -/
theorem v2_level4 : ∀ (b : Nat) (s : State) (D : Nat), s.reg0 = 4 → s.reg1 = b →
    b < 65536 → s.reg7 < 32768 → s.sp < 65536 → D ≤ 65536 → b + s.reg7 ≤ D →
    (∀ j, j < b → b - 1 - j + level4 s.reg7 j ≤ D) →
    ∃ n t, sub178b_v2 n s = some t ∧ t.reg0 = level4 s.reg7 b ∧ t.sp = s.sp ∧
      t.reg7 = s.reg7 ∧ Frame D s t ∧
      (∀ i, t.stack i = s.stack i ∨ t.stack i = 3 ∨
        (t.stack i = 4 ∧ ∃ j, j < b ∧ i = (s.sp + j) % 65536)) ∧
      ∀ j, b ≤ j → j < b + s.reg7 → t.stack ((s.sp + j) % 65536) = 3 := by
  intro b
  induction b with
  | zero =>
    intro s D h0 h1 _ h7 hsp _ hbD _
    obtain ⟨n, t, hrun, t0, tsp, t7, tf, tv, tfill⟩ :=
      v2_level3 s.reg7 { s with reg0 := dec16 s.reg0, reg1 := s.reg7 }
        (by show dec16 s.reg0 = 3; rw [h0, dec16_four]) rfl (by omega) hsp
    refine ⟨n + 1, t, ?_, t0, tsp, t7, frame_mono (by omega) (show Frame s.reg7 s t from tf),
      fun i => ?_, fun j _ hj => tfill j (by omega)⟩
    · rw [v2_dec n s (by omega) h1]; exact hrun
    · rcases tv i with h | h
      · exact Or.inl h
      · exact Or.inr (Or.inl h)
  | succ b ih =>
    intro s D h0 h1 hb h7 hsp hD hbD hdepth
    have he1 : (enter s).reg1 = b := by
      show dec16 s.reg1 = b
      rw [h1, dec16_pos _ (by omega) (by omega)]; rfl
    obtain ⟨n1, u, hrun1, u0, usp, u7, uf, uv, ufill⟩ :=
      ih (enter s) (D - 1) h0 he1 (by omega) h7 (inc16_lt _) (by omega)
        (by show b + s.reg7 ≤ D - 1; omega)
        (fun j hj => by
          have := hdepth j (by omega)
          show b - 1 - j + level4 s.reg7 j ≤ D - 1
          omega)
    have u7' : u.reg7 = s.reg7 := u7
    have u0' : u.reg0 = level4 s.reg7 b := u0
    have hlsp : (leave u).sp = s.sp := by
      show dec16 u.sp = s.sp
      rw [usp]; exact dec16_inc16 _ hsp
    have hpop : u.stack s.sp = 4 := (pop_of_frame (by omega) uf).trans h0
    have hl0 : (leave u).reg0 = 3 := by
      show dec16 (u.stack (dec16 u.sp)) = 3
      rw [show dec16 u.sp = s.sp from hlsp, hpop, dec16_four]
    have hlt := level4_lt s.reg7 b
    obtain ⟨n2, t, hrun2, t0, tsp, t7, tf, tv, _⟩ :=
      v2_level3 u.reg0 (leave u) hl0 rfl (by rw [u0']; omega) (by rw [hlsp]; exact hsp)
    have l7 : (leave u).reg7 = s.reg7 := u7'
    have tv' : ∀ i, t.stack i = u.stack i ∨ t.stack i = 3 := tv
    have hidx : ∀ j, ((enter s).sp + j) % 65536 = (s.sp + (j + 1)) % 65536 := by
      intro j
      show (inc16 s.sp + j) % 65536 = _
      unfold inc16; omega
    refine ⟨max n1 n2 + 1, t, v2_call_then (by omega) (by omega) hrun1 hrun2, ?_,
      tsp.trans hlsp, t7.trans l7, ?_, ?_, ?_⟩
    · rw [t0, l7, u0', level4_succ]
    · refine frame_call hsp uf hlsp tf (by omega) ?_
      have := hdepth b (by omega)
      rw [u0']; omega
    · intro i
      rcases tv' i with h | h
      · rw [h]
        rcases uv i with g | g | ⟨g, j, hj, hji⟩
        · rw [g, enter_stack]
          by_cases hi : i = s.sp
          · right; right
            rw [if_pos hi, h0]
            exact ⟨rfl, 0, by omega, by rw [hi, Nat.add_zero, Nat.mod_eq_of_lt hsp]⟩
          · left; rw [if_neg hi]
        · exact Or.inr (Or.inl g)
        · exact Or.inr (Or.inr ⟨g, j + 1, by omega, by rw [hji, hidx]⟩)
      · exact Or.inr (Or.inl h)
    · intro j hj1 hj2
      obtain ⟨k, rfl⟩ : ∃ k, j = k + 1 := ⟨j - 1, by omega⟩
      have := ufill k (by omega) (by show k < b + s.reg7; omega)
      rw [hidx] at this
      rcases tv' ((s.sp + (k + 1)) % 65536) with h | h
      · rw [h]; exact this
      · exact h

/-- With `reg0 = 4` and arguments below 32768 the recursion stays within 65536
slots, and `calculate` leaves `level4 c b`. -/
theorem calculate_4 (b c : Nat) (hb : b < 32768) (hc : c < 32768) (s : State) :
    ∃ n t, calculate n 4 b c s = some t ∧ t.reg0 = level4 c b := by
  obtain ⟨n, t, hrun, t0, _⟩ := v2_level4 b (setup 4 b c s) 65536 rfl rfl (by omega) hc
    (show 0 < 65536 by omega) (Nat.le_refl _) (by show b + c ≤ 65536; omega)
    (fun j _ => by
      have := level4_lt c j
      show b - 1 - j + level4 c j ≤ 65536
      omega)
  exact ⟨n, t, hrun, t0⟩

/-! ## Closed form of the level `reg0 = 3` -/

theorem level2_eq (c x : Nat) : level2 c x = ((c + 1) * x + (2 * c + 1)) % 32768 := by
  unfold level2
  rw [mask15, mask15]
  have : (c + 1) * x + (2 * c + 1) = x + (x + 2) * c + 1 := by ring
  rw [this]; omega

theorem geom_spec (c n : Nat) : c * geom (c + 1) n + 1 = (c + 1) ^ n := by
  induction n with
  | zero => simp [geom]
  | succ n ih =>
    rw [pow_succ, ← ih]
    simp only [geom]
    ring

theorem iterate_level2 (c x : Nat) : ∀ n : Nat,
    (level2 c)^[n] x ≡ (c + 1) ^ n * x + (2 * c + 1) * geom (c + 1) n [MOD 32768] := by
  intro n
  induction n with
  | zero => simp [geom, Nat.ModEq]
  | succ n ih =>
    rw [Function.iterate_succ_apply', level2_eq]
    refine (Nat.mod_modEq _ _).trans ?_
    refine (Nat.ModEq.add_right _ (Nat.ModEq.mul_left _ ih)).trans ?_
    have : (c + 1) * ((c + 1) ^ n * x + (2 * c + 1) * geom (c + 1) n) + (2 * c + 1)
        = (c + 1) ^ (n + 1) * x + (2 * c + 1) * geom (c + 1) (n + 1) := by
      simp only [geom, pow_succ]
      ring
    rw [this]

theorem powMod_eq (q n m : Nat) : powMod q n m = q ^ n % m := by
  show ((q ^ (n % 256) % m) * ((q ^ 256 % m) ^ (n / 256) % m)) % m = q ^ n % m
  conv_rhs => rw [← Nat.mod_add_div n 256, pow_add, pow_mul, Nat.mul_mod,
    Nat.pow_mod (q ^ 256)]

/-- The two residues that `level3Aux` reads off `p = (c + 1) ^ n mod (c * 32768)`. -/
theorem level3Aux_parts (c n : Nat) (hc : 0 < c) :
    ((c + 1) ^ n % (c * 32768)) % 32768 = (c + 1) ^ n % 32768 ∧
    (((c + 1) ^ n % (c * 32768) + c * 32768 - 1) % (c * 32768)) / c
      = geom (c + 1) n % 32768 := by
  constructor
  · exact Nat.mod_mod_of_dvd _ (Dvd.intro_left c rfl)
  · have hm : 0 < c * 32768 := by omega
    have h1 : 1 ≤ (c + 1) ^ n % (c * 32768) + c * 32768 := by omega
    have h2 : ((c + 1) ^ n % (c * 32768) + c * 32768 - 1) % (c * 32768)
        = (c * geom (c + 1) n) % (c * 32768) := by
      have e : ((c + 1) ^ n % (c * 32768) + c * 32768 - 1) + 1
          = (c + 1) ^ n % (c * 32768) + c * 32768 := by omega
      have e2 : (((c + 1) ^ n % (c * 32768) + c * 32768 - 1) + 1) % (c * 32768)
          = (c * geom (c + 1) n + 1) % (c * 32768) := by
        rw [e, Nat.add_mod_right, Nat.mod_mod, geom_spec]
      exact Nat.ModEq.add_right_cancel' 1 e2
    rw [h2, Nat.mul_mod_mul_left, Nat.mul_div_cancel_left _ hc]

theorem level3_eq_fast (c y : Nat) (hc : 0 < c) : level3 c y = level3Fast c y := by
  have h := iterate_level2 c c (y + 1)
  obtain ⟨p1, p2⟩ := level3Aux_parts c (y + 1) hc
  have hfast : level3Fast c y
      = (((c + 1) ^ (y + 1) % 32768) * c + (2 * c + 1) * (geom (c + 1) (y + 1) % 32768))
          % 32768 := by
    show ((powMod (c + 1) (y + 1) (c * 32768) % 32768) * c
      + (2 * c + 1) * (((powMod (c + 1) (y + 1) (c * 32768) + c * 32768 - 1)
          % (c * 32768)) / c)) % 32768 = _
    rw [powMod_eq, p1, p2]
  have hlt := level3_lt c y
  unfold level3 at hlt ⊢
  have h' : (level2 c)^[y + 1] c % 32768
      = ((c + 1) ^ (y + 1) * c + (2 * c + 1) * geom (c + 1) (y + 1)) % 32768 := h
  rw [hfast, ← Nat.mod_eq_of_lt hlt, h']
  conv_lhs => rw [Nat.add_mod, Nat.mul_mod, Nat.mul_mod (2 * c + 1)]
  conv_rhs => rw [Nat.add_mod, Nat.mul_mod, Nat.mul_mod (2 * c + 1)]
  simp only [Nat.mod_mod]

theorem iterS_eq (f : Nat → Nat) : ∀ (n x : Nat), iterS f n x = f^[n] x := by
  intro n
  induction n with
  | zero => intro x; rfl
  | succ n ih =>
    intro x
    rw [Function.iterate_succ_apply, ← ih (f x)]
    simp only [iterS]
    split
    · next h => rw [h]
    · next y h => rw [h]

/-! ## The unique match of the search -/

theorem checkTree_sound : ∀ (d lo : Nat), checkTree d lo = true →
    ∀ c, lo ≤ c → c < lo + 2 ^ d → searchOK c = true := by
  intro d
  induction d with
  | zero =>
    intro lo h c h1 h2
    have : c = lo := by simp at h2; omega
    rw [this]; exact h
  | succ d ih =>
    intro lo h c h1 h2
    have h' : (checkTree d lo && checkTree d (lo + 2 ^ d)) = true := h
    rw [Bool.and_eq_true] at h'
    by_cases hc : c < lo + 2 ^ d
    · exact ih lo h'.1 c h1 hc
    · exact ih (lo + 2 ^ d) h'.2 c (by omega) (by rw [pow_succ] at h2; omega)

theorem search_block_0 : checkTree 13 0 = true := by decide!

theorem search_block_1 : checkTree 13 8192 = true := by decide!

theorem search_block_2 : checkTree 13 16384 = true := by decide!

theorem search_block_3 : checkTree 13 24576 = true := by decide!

theorem searchOK_all (c : Nat) (hc : c < 32768) : searchOK c = true := by
  by_cases h1 : c < 8192
  · exact checkTree_sound 13 0 search_block_0 c (by omega) (by norm_num; omega)
  by_cases h2 : c < 16384
  · exact checkTree_sound 13 8192 search_block_1 c (by omega) (by norm_num; omega)
  by_cases h3 : c < 24576
  · exact checkTree_sound 13 16384 search_block_2 c (by omega) (by norm_num; omega)
  · exact checkTree_sound 13 24576 search_block_3 c (by omega) (by norm_num; omega)

theorem level4_one (c : Nat) : level4 c 1 = level3 c (level3 c c) := rfl

/-- Among the candidates, `level4 c 1` is 6 exactly for `c = 25734`. -/
theorem level4_one_eq_target (c : Nat) (h1 : 1 ≤ c) (hc : c < 32768) :
    level4 c 1 = 6 ↔ c = 25734 := by
  have h := searchOK_all c hc
  rw [level4_one, level3_eq_fast c _ h1, level3_eq_fast c _ h1]
  unfold searchOK at h
  by_cases hk : c = 25734
  · have hb : Nat.beq c 25734 = true := by rw [hk]; rfl
    rw [hb] at h
    exact ⟨fun _ => hk, fun _ => Nat.eq_of_beq_eq_true h⟩
  · have hb : Nat.beq c 25734 = false := by
      cases hx : Nat.beq c 25734 with
      | false => rfl
      | true => exact absurd (Nat.eq_of_beq_eq_true hx) hk
    rw [hb] at h
    refine ⟨fun he => ?_, fun he => absurd he hk⟩
    rw [he] at h
    exact absurd h (by decide)

theorem flatMap_single {β : Type} (g : Nat → List β) (c0 : Nat) : ∀ (L : List Nat), L.Nodup →
    c0 ∈ L → (∀ c, c ∈ L → c ≠ c0 → g c = []) → L.flatMap g = g c0 := by
  intro L
  induction L with
  | nil => intro _ h; simp at h
  | cons x L ih =>
    intro hnd hmem hg
    rw [List.flatMap_cons]
    rw [List.nodup_cons] at hnd
    by_cases hx : x = c0
    · subst hx
      have : L.flatMap g = [] := by
        rw [List.flatMap_eq_nil_iff]
        intro c hc
        exact hg c (List.mem_cons_of_mem _ hc) (fun h => hnd.1 (h ▸ hc))
      rw [this, List.append_nil]
    · have hmem' : c0 ∈ L := by
        rcases List.mem_cons.mp hmem with h | h
        · exact absurd h.symm hx
        · exact h
      rw [hg x (List.mem_cons_self _ _) hx, List.nil_append]
      exact ih hnd.2 hmem' (fun c hc => hg c (List.mem_cons_of_mem _ hc))

theorem reports_call_cons (r0 r1 r7 : Nat) (evs : List Event) :
    reports (Event.call r0 r1 r7 :: evs) = reports evs := rfl

theorem reports_banner_cons (evs : List Event) :
    reports (Event.banner :: evs) = reports evs := rfl

theorem reports_flatMap (r0 r1 : Nat → Nat) : ∀ L : List Nat,
    reports (L.flatMap (fun c => Event.call 4 1 c ::
        if r0 c = TARGET then [Event.report 4 1 c (r0 c) (r1 c)] else []))
      = L.flatMap (fun c =>
        if r0 c = TARGET then [Event.report 4 1 c (r0 c) (r1 c)] else []) := by
  intro L
  induction L with
  | nil => rfl
  | cons x L ih =>
    rw [List.flatMap_cons, List.flatMap_cons]
    unfold reports at ih ⊢
    rw [List.filter_append, ih]
    congr 1
    by_cases h : r0 x = TARGET
    · simp [h]
    · simp [h]

/-- C4: among the candidates `c` in `1..32767` exactly one, `c = 25734`, makes
`calculate(4, 1, c)` leave `reg0 = 6` (`TARGET`), whatever the globals before
the call; and the run of `main` prints exactly one line for a match, the line
`(4, 1, 25734) --> r0: 6  r1: 5`. -/
theorem search_has_exactly_one_match :
    (∃! c, 1 ≤ c ∧ c < 32768 ∧ ∀ s : State, ∃ n, evaluate n 4 1 c s = some TARGET) ∧
    ∃ N evs u, main N = some (evs, u) ∧ reports evs = [Event.report 4 1 25734 6 5] := by
  have hval : ∀ c, 1 ≤ c → c < 32768 → ∀ s : State,
      ∃ n, evaluate n 4 1 c s = some (level4 c 1) := by
    intro c _ hc s
    obtain ⟨n, t, hrun, t0⟩ := calculate_4 1 c (by omega) hc s
    exact ⟨n, by rw [evaluate_of_calculate hrun, t0]⟩
  constructor
  · refine ⟨25734, ⟨by omega, by omega, fun s => ?_⟩, ?_⟩
    · obtain ⟨n, hn⟩ := hval 25734 (by omega) (by omega) s
      rw [(level4_one_eq_target 25734 (by omega) (by omega)).mpr rfl] at hn
      exact ⟨n, hn⟩
    · rintro c ⟨h1, hc, hev⟩
      obtain ⟨n, hn⟩ := hev initState
      obtain ⟨m, hm⟩ := hval c h1 hc initState
      have := evaluate_det hm hn
      exact (level4_one_eq_target c h1 hc).mp this
  · obtain ⟨N, r0, r1, u, hres, hN, hmain⟩ := main_trace
    refine ⟨N, _, u, hmain, ?_⟩
    -- what the calls leave
    have hr0 : ∀ c, 1 ≤ c → c < 32768 → r0 c = level4 c 1 := by
      intro c h1 hc
      obtain ⟨n, t, hrun, t0⟩ := calculate_4 1 c (by omega) hc initState
      rw [← (hres c h1 hc initState t n hrun).1, t0]
    have hr1 : r1 25734 = 5 := by
      obtain ⟨n, t, hrun, _, _, p3, p4, _⟩ :=
        calculate_total 4 1 25734 (by omega) (by omega) (by omega) initState
      obtain ⟨e0, e1⟩ := hres 25734 (by omega) (by omega) initState t n hrun
      have h6 : r0 25734 = 6 := by
        rw [hr0 25734 (by omega) (by omega)]
        exact (level4_one_eq_target 25734 (by omega) (by omega)).mpr rfl
      have hlt : t.reg1 < 32768 := p4 (by show (4 : Nat) ≠ 0; omega)
      omega
    have h6 : r0 25734 = 6 := by
      rw [hr0 25734 (by omega) (by omega)]
      exact (level4_one_eq_target 25734 (by omega) (by omega)).mpr rfl
    rw [reports_banner_cons, reports_flatMap,
      flatMap_single _ 25734 _ (List.nodup_range' 1 32767) (by simp)]
    · rw [if_pos (by rw [h6]; rfl), h6, hr1]
    · intro c hc hne
      rw [List.mem_range'_1] at hc
      rw [if_neg]
      rw [hr0 c hc.1 (by omega)]
      intro h
      exact hne ((level4_one_eq_target c hc.1 (by omega)).mp h)

/-! ## A deep recursion: `calculate(5, 9, 32764)`

With `reg7 = 32764` the recursion for `reg0 = 5`, `reg1 = 9` is 65537 calls
deep.  The stack pointer is a `uint16_t`, so the deepest push lands on slot 0
again and replaces the 5 that the outermost call pushed by a 3. -/

theorem iterS_add (f : Nat → Nat) (m n x : Nat) :
    iterS f (m + n) x = iterS f m (iterS f n x) := by
  rw [iterS_eq, iterS_eq, iterS_eq, Function.iterate_add_apply]

theorem level4_eq_iterS (c j : Nat) (hc : 0 < c) :
    level4 c j = iterS (level3Fast c) (j + 1) c := by
  have hf : level3 c = level3Fast c := funext fun y => level3_eq_fast c y hc
  unfold level4
  rw [iterS_eq, hf]

theorem orbit_8192 : iterS (level3Fast 32764) 8192 32764 = 8188 := by decide!

theorem orbit_16384 : iterS (level3Fast 32764) 8192 8188 = 16380 := by decide!

theorem orbit_24576 : iterS (level3Fast 32764) 8192 16380 = 24572 := by decide!

theorem orbit_32765 : iterS (level3Fast 32764) 8189 24572 = 32765 := by decide!

theorem orbit_cycle :
    level3Fast 32764 32765 = 32766 ∧ level3Fast 32764 32766 = 32767 ∧
    level3Fast 32764 32767 = 32764 := by decide!

theorem orbit_start :
    iterS (level3Fast 32764) 1 32764 = 10921 ∧ iterS (level3Fast 32764) 2 32764 = 2786 ∧
    iterS (level3Fast 32764) 3 32764 = 18523 ∧ iterS (level3Fast 32764) 4 32764 = 21648 ∧
    iterS (level3Fast 32764) 5 32764 = 12405 := by decide!

theorem level4_deep_32764 : level4 32764 32764 = 32765 := by
  rw [level4_eq_iterS _ _ (by omega),
    show 32764 + 1 = 8189 + (8192 + (8192 + 8192)) from rfl,
    iterS_add, iterS_add, iterS_add, orbit_8192, orbit_16384, orbit_24576, orbit_32765]

theorem level4_deep_32765 : level4 32764 32765 = 32766 := by
  rw [level4_succ, level4_deep_32764, level3_eq_fast _ _ (by omega)]
  exact orbit_cycle.1

theorem level4_deep_32766 : level4 32764 32766 = 32767 := by
  rw [level4_succ, level4_deep_32765, level3_eq_fast _ _ (by omega)]
  exact orbit_cycle.2.1

theorem level4_deep_32767 : level4 32764 32767 = 32764 := by
  rw [level4_succ, level4_deep_32766, level3_eq_fast _ _ (by omega)]
  exact orbit_cycle.2.2

theorem level5_zero (c : Nat) : level5 c 0 = level4 c c := rfl

theorem level5_succ (c b : Nat) : level5 c (b + 1) = level4 c (level5 c b) :=
  Function.iterate_succ_apply' _ _ _

/-- The values that the recursive rule gives for `reg0 = 5`, `reg7 = 32764`. -/
theorem level5_deep :
    level5 32764 0 = 32765 ∧ level5 32764 1 = 32766 ∧ level5 32764 2 = 32767 ∧
    level5 32764 3 = 32764 ∧ level5 32764 4 = 32765 ∧ level5 32764 5 = 32766 ∧
    level5 32764 6 = 32767 ∧ level5 32764 7 = 32764 ∧ level5 32764 8 = 32765 := by
  have h0 : level5 32764 0 = 32765 := by rw [level5_zero, level4_deep_32764]
  have h1 : level5 32764 1 = 32766 := by rw [level5_succ, h0, level4_deep_32765]
  have h2 : level5 32764 2 = 32767 := by rw [level5_succ, h1, level4_deep_32766]
  have h3 : level5 32764 3 = 32764 := by rw [level5_succ, h2, level4_deep_32767]
  have h4 : level5 32764 4 = 32765 := by rw [level5_succ, h3, level4_deep_32764]
  have h5 : level5 32764 5 = 32766 := by rw [level5_succ, h4, level4_deep_32765]
  have h6 : level5 32764 6 = 32767 := by rw [level5_succ, h5, level4_deep_32766]
  have h7 : level5 32764 7 = 32764 := by rw [level5_succ, h6, level4_deep_32767]
  have h8 : level5 32764 8 = 32765 := by rw [level5_succ, h7, level4_deep_32764]
  exact ⟨h0, h1, h2, h3, h4, h5, h6, h7, h8⟩

/-- Depth of the recursion on `reg0 = 4`, `reg7 = 32764`: the pending pushes
and the threes above them stay within 65528 slots. -/
theorem depth_deep (x D : Nat) (hx : x < 32768) (hD : 65528 ≤ D) :
    ∀ j, j < x → x - 1 - j + level4 32764 j ≤ D := by
  intro j hj
  by_cases h5 : j < 5
  · obtain ⟨s1, s2, s3, s4, s5⟩ := orbit_start
    have e : level4 32764 j ≤ 21648 := by
      rw [level4_eq_iterS _ _ (by omega)]
      interval_cases j
      · rw [s1]; omega
      · rw [s2]; omega
      · rw [s3]; omega
      · rw [s4]
      · rw [s5]; omega
    omega
  · have := level4_lt 32764 j
    omega

theorem level5_deep_le (k : Nat) (hk : k ≤ 7) : level5 32764 k ≤ 32765 + k := by
  obtain ⟨h0, h1, h2, h3, h4, h5, h6, h7, _⟩ := level5_deep
  interval_cases k <;> omega

theorem level5_lt (c k : Nat) : level5 c k < 32768 := by
  cases k with
  | zero => exact level4_lt c c
  | succ k => rw [level5_succ]; exact level4_lt _ _

/-- The calls with `reg0 = 5`, `reg7 = 32764` and `reg1 = k ≤ 8` that are nested
in `calculate(5, P, 32764)` for `P = 8` or `P = 9`, the call for `k` being
entered with `sp = P - k`: each leaves `level5 32764 k` and the slots below its
stack pointer untouched, except that for `P = 9` the deepest push wraps round
to slot 0 and leaves a 3 there. -/
theorem v2_level5_chain (P : Nat) (hP : P = 8 ∨ P = 9) : ∀ (k : Nat) (s : State),
    k ≤ 8 → s.reg0 = 5 → s.reg1 = k → s.reg7 = 32764 → s.sp + k = P →
    ∃ n t, sub178b_v2 n s = some t ∧ t.reg0 = level5 32764 k ∧ t.sp = s.sp ∧
      t.reg7 = 32764 ∧ (∀ i, i < s.sp → (P = 8 ∨ 1 ≤ i) → t.stack i = s.stack i) ∧
      (P = 9 → t.stack 0 = 3) := by
  intro k
  induction k with
  | zero =>
    intro s _ h0 h1 h7 hsp
    obtain ⟨n, t, hrun, t0, tsp, t7, tf, _, tfill⟩ :=
      v2_level4 32764 { s with reg0 := dec16 s.reg0, reg1 := s.reg7 } 65528
        (by show dec16 s.reg0 = 4; rw [h0, dec16_five]) h7 (by omega)
        (by show s.reg7 < 32768; omega) (by show s.sp < 65536; omega) (by omega)
        (by show 32764 + s.reg7 ≤ 65528; omega)
        (by show ∀ j, j < 32764 → 32764 - 1 - j + level4 s.reg7 j ≤ 65528
            rw [h7]; exact depth_deep 32764 65528 (by omega) (by omega))
    have t0' : t.reg0 = level4 s.reg7 32764 := t0
    have tsp' : t.sp = s.sp := tsp
    have t7' : t.reg7 = s.reg7 := t7
    have tf' : ∀ i, (∀ j, j < 65528 → i ≠ (s.sp + j) % 65536) → t.stack i = s.stack i := tf
    have tfill' : ∀ j, 32764 ≤ j → j < 32764 + s.reg7 → t.stack ((s.sp + j) % 65536) = 3 :=
      tfill
    refine ⟨n + 1, t, ?_, ?_, tsp', t7'.trans h7, fun i hi hi' => ?_, fun h9 => ?_⟩
    · rw [v2_dec n s (by omega) h1]; exact hrun
    · rw [t0', h7, level5_zero]
    · apply tf'
      intro j hj
      omega
    · have := tfill' 65527 (by omega) (by omega)
      rw [show (s.sp + 65527) % 65536 = 0 by omega] at this
      exact this
  | succ k ih =>
    intro s hk h0 h1 h7 hsp
    have hsp' : s.sp < 65536 := by omega
    have he1 : (enter s).reg1 = k := by
      show dec16 s.reg1 = k
      rw [h1, dec16_pos _ (by omega) (by omega)]; rfl
    have hesp : (enter s).sp = s.sp + 1 := by
      show inc16 s.sp = s.sp + 1
      exact inc16_small _ (by omega)
    obtain ⟨n1, u, hrun1, u0, usp, u7, uf, u9⟩ :=
      ih (enter s) (by omega) h0 he1 h7 (by rw [hesp]; omega)
    have hlsp : (leave u).sp = s.sp := by
      show dec16 u.sp = s.sp
      rw [usp]; exact dec16_inc16 _ hsp'
    -- the pop returns the 5 that was pushed
    have hpop : u.stack s.sp = 5 := by
      rw [uf s.sp (by rw [hesp]; omega) (by omega), enter_stack, if_pos rfl, h0]
    have hl0 : (leave u).reg0 = 4 := by
      show dec16 (u.stack (dec16 u.sp)) = 4
      rw [show dec16 u.sp = s.sp from hlsp, hpop, dec16_five]
    have hl7 : (leave u).reg7 = 32764 := u7
    have hlt := level5_lt 32764 k
    have hle := level5_deep_le k (by omega)
    obtain ⟨n2, t, hrun2, t0, tsp, t7, tf, tv, _⟩ :=
      v2_level4 (level5 32764 k) (leave u) (65529 + k) hl0 u0 (by omega)
        (by rw [hl7]; omega) (by rw [hlsp]; exact hsp') (by omega)
        (by rw [hl7]; omega)
        (by rw [hl7]; exact depth_deep _ _ hlt (by omega))
    have tf' : ∀ i, (∀ j, j < 65529 + k → i ≠ ((leave u).sp + j) % 65536) →
        t.stack i = u.stack i := tf
    have tv' : ∀ i, t.stack i = u.stack i ∨ t.stack i = 3 ∨
        (t.stack i = 4 ∧ ∃ j, j < level5 32764 k ∧ i = ((leave u).sp + j) % 65536) := tv
    refine ⟨max n1 n2 + 1, t, v2_call_then (by omega) (by omega) hrun1 hrun2, ?_,
      tsp.trans hlsp, t7.trans hl7, fun i hi hi' => ?_, fun h9 => ?_⟩
    · rw [t0, hl7, level5_succ]
    · rw [tf' i (fun j hj => by rw [hlsp]; omega),
        uf i (by rw [hesp]; omega) hi', enter_stack, if_neg (by omega)]
    · rcases tv' 0 with h | h | ⟨_, j, hj, hj0⟩
      · rw [h]; exact u9 h9
      · exact h
      · rw [hlsp] at hj0
        omega

/-- The run of `calculate(5, 8, 32764)`: 65536 nested calls, no live slot is
overwritten, and the result is the one of the recursive rule. -/
theorem calculate_5_8_deep (s : State) :
    ∃ n t, calculate n 5 8 32764 s = some t ∧ t.reg0 = 32765 := by
  obtain ⟨n, t, hrun, t0, _⟩ := v2_level5_chain 8 (Or.inl rfl) 8 (setup 5 8 32764 s)
    (by omega) rfl rfl rfl rfl
  exact ⟨n, t, hrun, t0.trans level5_deep.2.2.2.2.2.2.2.2⟩

/-- The run of `calculate(5, 9, 32764)`: the outermost call pushes 5 on slot 0,
the call for `reg1 = 8` returns 32765 but leaves a 3 on slot 0, so the pop gives
`reg0 = 2` and the closed form for 2 is applied to 32765. -/
theorem calculate_5_9_deep (s : State) :
    ∃ n t, calculate n 5 9 32764 s = some t ∧ t.reg0 = 2 := by
  have he1 : (enter (setup 5 9 32764 s)).reg1 = 8 := by
    show dec16 9 = 8
    rw [dec16_pos _ (by omega) (by omega)]
  have hesp : (enter (setup 5 9 32764 s)).sp = 1 := by
    show inc16 0 = 1
    exact inc16_small _ (by omega)
  obtain ⟨n1, u, hrun1, u0, usp, u7, _, u9⟩ :=
    v2_level5_chain 9 (Or.inr rfl) 8 (enter (setup 5 9 32764 s)) (by omega) rfl he1 rfl
      (by rw [hesp])
  have hlsp : dec16 u.sp = 0 := by
    rw [usp, hesp, dec16_one]
  have hl0 : (leave u).reg0 = 2 := by
    show dec16 (u.stack (dec16 u.sp)) = 2
    rw [hlsp, u9 rfl, dec16_three]
  obtain ⟨t, hrun2, t0, _⟩ := v2_level2 0 (leave u) hl0
  refine ⟨max n1 1 + 1, t,
    v2_call_then (s := setup 5 9 32764 s) (show 3 ≤ 5 by omega) (show 9 ≠ 0 by omega)
      hrun1 hrun2, ?_⟩
  rw [t0]
  show level2 u.reg7 u.reg0 = 2
  rw [u7, u0, level5_deep.2.2.2.2.2.2.2.2]
  decide

/-! ## The recursive rule -/

theorem calculate_3 (b c : Nat) (hb : b < 32768) (s : State) :
    ∃ n t, calculate n 3 b c s = some t ∧ t.reg0 = level3 c b := by
  obtain ⟨n, t, hrun, t0, _⟩ := v2_level3 b (setup 3 b c s) rfl rfl (by omega)
    (show 0 < 65536 by omega)
  exact ⟨n, t, hrun, t0⟩

/-- What `calculate(a, b, c)` leaves in `reg0` for `a ≤ 4`. -/
theorem evaluate_upto_4 (a b c : Nat) (ha : a ≤ 4) (hb : b < 32768) (hc : c < 32768)
    (s : State) :
    ∃ n, evaluate n a b c s = some
      (if a = 0 then (b + 1) % 32768 else if a = 1 then (b + c + 1) % 32768
        else if a = 2 then level2 c b else if a = 3 then level3 c b else level4 c b) := by
  rcases (show a = 0 ∨ a = 1 ∨ a = 2 ∨ a = 3 ∨ a = 4 by omega) with h | h | h | h | h
  · subst h; exact ⟨1, evaluate_0 0 b c s⟩
  · subst h; exact ⟨1, evaluate_1 0 b c s⟩
  · subst h
    refine ⟨1, ?_⟩
    rw [evaluate_of_calculate (calculate_2 0 b c s)]
    rfl
  · subst h
    obtain ⟨n, t, hrun, t0⟩ := calculate_3 b c hb s
    exact ⟨n, by rw [evaluate_of_calculate hrun, t0]; rfl⟩
  · subst h
    obtain ⟨n, t, hrun, t0⟩ := calculate_4 b c hb hc s
    exact ⟨n, by rw [evaluate_of_calculate hrun, t0]; rfl⟩

/-- The recursive rule holds for `a ≤ 4`, where the recursion is at most 65534
calls deep: `calculate(a, b, c)` leaves what `calculate(a - 1, w, c)` leaves,
`w` being what `calculate(a, b - 1, c)` leaves. -/
theorem recursion_rule_upto_4 (a b c : Nat) (ha0 : 0 < a) (ha : a ≤ 4) (hb0 : 0 < b)
    (hb : b < 32768) (hc : c < 32768) (s s' s'' : State) :
    ∃ v w, (∃ n, evaluate n a b c s = some v) ∧ (∃ n, evaluate n a (b - 1) c s' = some w) ∧
      ∃ n, evaluate n (a - 1) w c s'' = some v := by
  obtain ⟨k, rfl⟩ : ∃ k, b = k + 1 := ⟨b - 1, by omega⟩
  obtain ⟨n1, h1⟩ := evaluate_upto_4 a (k + 1) c ha hb hc s
  obtain ⟨n2, h2⟩ := evaluate_upto_4 a k c ha (by omega) hc s'
  refine ⟨_, _, ⟨n1, h1⟩, ⟨n2, h2⟩, ?_⟩
  rcases (show a = 1 ∨ a = 2 ∨ a = 3 ∨ a = 4 by omega) with h | h | h | h
  · subst h
    refine ⟨1, ?_⟩
    simp only [Nat.add_sub_cancel, if_true, if_false, Nat.succ_ne_zero]
    rw [evaluate_0]
    exact congrArg some (by omega)
  · subst h
    refine ⟨1, ?_⟩
    simp only [Nat.add_sub_cancel, if_true, if_false, Nat.succ_ne_zero,
      show (2 : Nat) ≠ 1 by omega, show (2 : Nat) - 1 = 1 from rfl]
    rw [evaluate_1, level2_eq, level2_eq]
    refine congrArg some ?_
    have e1 : (c + 1) * (k + 1) = (c + 1) * k + c + 1 := by ring
    rw [e1]
    omega
  · subst h
    obtain ⟨n3, h3⟩ := evaluate_upto_4 2 (level3 c k) c (by omega) (level3_lt c k) hc s''
    refine ⟨n3, ?_⟩
    simp only [Nat.add_sub_cancel, if_true, if_false, Nat.succ_ne_zero,
      show (3 : Nat) ≠ 1 by omega, show (3 : Nat) ≠ 2 by omega,
      show (3 : Nat) - 1 = 2 from rfl, show (2 : Nat) ≠ 1 by omega] at h3 ⊢
    rw [h3, level3_succ]
  · subst h
    obtain ⟨n3, h3⟩ := evaluate_upto_4 3 (level4 c k) c (by omega) (level4_lt c k) hc s''
    refine ⟨n3, ?_⟩
    simp only [Nat.add_sub_cancel, if_true, if_false, Nat.succ_ne_zero,
      show (4 : Nat) ≠ 1 by omega, show (4 : Nat) ≠ 2 by omega, show (4 : Nat) ≠ 3 by omega,
      show (4 : Nat) - 1 = 3 from rfl, show (3 : Nat) ≠ 1 by omega,
      show (3 : Nat) ≠ 2 by omega] at h3 ⊢
    rw [h3, level4_succ]

/-- C1 fails on the code for `a = 5`, `b = 9`, `c = 32764`: `calculate(5, 9, 32764)`
leaves `reg0 = 2`, whereas `calculate(5, 8, 32764)` leaves 32765 and
`calculate(4, 32765, 32764)` leaves 32766; so the rule
`evaluate(a, b, c) = evaluate(a - 1, evaluate(a, b - 1, c), c)` does not hold
there, whatever the globals before the calls and the fuel. -/
theorem recursion_rule_fails_when_sp_wraps :
    (∀ s : State, ∃ n, evaluate n 5 9 32764 s = some 2) ∧
    (∀ s : State, ∃ n, evaluate n 5 (9 - 1) 32764 s = some 32765) ∧
    (∀ s : State, ∃ n, evaluate n (5 - 1) 32765 32764 s = some 32766) ∧
    ¬ ∃ v w, (∃ n, evaluate n 5 9 32764 initState = some v) ∧
      (∃ n, evaluate n 5 (9 - 1) 32764 initState = some w) ∧
      ∃ n, evaluate n (5 - 1) w 32764 initState = some v := by
  have h9 : ∀ s : State, ∃ n, evaluate n 5 9 32764 s = some 2 := by
    intro s
    obtain ⟨n, t, hrun, t0⟩ := calculate_5_9_deep s
    exact ⟨n, by rw [evaluate_of_calculate hrun, t0]⟩
  have h8 : ∀ s : State, ∃ n, evaluate n 5 (9 - 1) 32764 s = some 32765 := by
    intro s
    obtain ⟨n, t, hrun, t0⟩ := calculate_5_8_deep s
    exact ⟨n, by rw [evaluate_of_calculate hrun, t0]⟩
  have h4 : ∀ s : State, ∃ n, evaluate n (5 - 1) 32765 32764 s = some 32766 := by
    intro s
    obtain ⟨n, t, hrun, t0⟩ := calculate_4 32765 32764 (by omega) (by omega) s
    exact ⟨n, by rw [evaluate_of_calculate hrun, t0, level4_deep_32765]⟩
  refine ⟨h9, h8, h4, ?_⟩
  rintro ⟨v, w, ⟨n1, e1⟩, ⟨n2, e2⟩, ⟨n3, e3⟩⟩
  obtain ⟨m1, f1⟩ := h9 initState
  obtain ⟨m2, f2⟩ := h8 initState
  obtain ⟨m3, f3⟩ := h4 initState
  have hv : v = 2 := evaluate_det e1 f1
  have hw : w = 32765 := evaluate_det e2 f2
  subst hw
  have : v = 32766 := evaluate_det e3 f3
  omega

/-! ## Observed runs: unfolding and fuel -/

theorem along_small (p : State → Bool) (q : State → State → Bool) (n : Nat) (s : State)
    (h : s.reg0 ≤ 2) : along p q (n + 1) s = p s := by
  rw [along]
  by_cases h0 : s.reg0 = 0
  · rw [if_pos h0, Bool.and_true]
  by_cases h1 : s.reg0 = 1
  · rw [if_neg h0, if_pos h1, Bool.and_true]
  · rw [if_neg h0, if_neg h1, if_pos (by omega), Bool.and_true]

theorem along_dec (p : State → Bool) (q : State → State → Bool) (n : Nat) (s : State)
    (h : 3 ≤ s.reg0) (hb : s.reg1 = 0) :
    along p q (n + 1) s
      = (p s && along p q n { s with reg0 := dec16 s.reg0, reg1 := s.reg7 }) := by
  rw [along, if_neg (by omega), if_neg (by omega), if_neg (by omega), if_pos hb]

theorem along_call (p : State → Bool) (q : State → State → Bool) (n : Nat) (s t : State)
    (h : 3 ≤ s.reg0) (hb : s.reg1 ≠ 0) (hc : sub178b_v2 n (enter s) = some t) :
    along p q (n + 1) s
      = (p s && (along p q n (enter s) && (q s t && along p q n (leave t)))) := by
  rw [along, if_neg (by omega), if_neg (by omega), if_neg (by omega), if_neg hb, hc]

theorem along_call_none (p : State → Bool) (q : State → State → Bool) (n : Nat) (s : State)
    (h : 3 ≤ s.reg0) (hb : s.reg1 ≠ 0) (hc : sub178b_v2 n (enter s) = none) :
    along p q (n + 1) s = (p s && (along p q n (enter s) && true)) := by
  rw [along, if_neg (by omega), if_neg (by omega), if_neg (by omega), if_neg hb, hc]

/-- A check that fails with some fuel fails with more fuel. -/
theorem along_false_succ (p : State → Bool) (q : State → State → Bool) : ∀ (n : Nat)
    (s : State), along p q n s = false → along p q (n + 1) s = false := by
  intro n
  induction n with
  | zero => intro s h; simp [along] at h
  | succ n ih =>
    intro s h
    by_cases h2 : s.reg0 ≤ 2
    · rw [along_small p q _ s h2] at h ⊢; exact h
    by_cases hb : s.reg1 = 0
    · rw [along_dec p q _ s (by omega) hb] at h ⊢
      rw [Bool.and_eq_false_iff] at h ⊢
      rcases h with h | h
      · exact Or.inl h
      · exact Or.inr (ih _ h)
    · cases hc : sub178b_v2 n (enter s) with
      | none =>
        rw [along_call_none p q n s (by omega) hb hc] at h
        have h' : (p s && along p q n (enter s)) = false := by simpa using h
        cases hc' : sub178b_v2 (n + 1) (enter s) with
        | none =>
          rw [along_call_none p q _ s (by omega) hb hc']
          rw [Bool.and_eq_false_iff] at h' ⊢
          rcases h' with h' | h'
          · exact Or.inl h'
          · right; rw [ih _ h']; rfl
        | some t =>
          rw [along_call p q _ s t (by omega) hb hc']
          rw [Bool.and_eq_false_iff] at h' ⊢
          rcases h' with h' | h'
          · exact Or.inl h'
          · right; rw [ih _ h']; rfl
      | some t =>
        rw [along_call p q n s t (by omega) hb hc] at h
        rw [along_call p q _ s t (by omega) hb (sub178b_v2_fuel_succ _ _ _ hc)]
        simp only [Bool.and_eq_false_iff] at h ⊢
        rcases h with h | h | h | h
        · exact Or.inl h
        · exact Or.inr (Or.inl (ih _ h))
        · exact Or.inr (Or.inr (Or.inl h))
        · exact Or.inr (Or.inr (Or.inr (ih _ h)))

theorem along_false_mono (p : State → Bool) (q : State → State → Bool) {n m : Nat}
    {s : State} (hnm : n ≤ m) (h : along p q n s = false) : along p q m s = false := by
  induction hnm with
  | refl => exact h
  | step _ ih => exact along_false_succ p q _ s ih

/-- Once the run returns, more fuel does not change what is observed. -/
theorem along_stable_succ (p : State → Bool) (q : State → State → Bool) : ∀ (n : Nat)
    (s t : State), sub178b_v2 n s = some t → along p q (n + 1) s = along p q n s := by
  intro n
  induction n with
  | zero => intro s t h; simp [sub178b_v2] at h
  | succ n ih =>
    intro s t h
    by_cases h2 : s.reg0 ≤ 2
    · rw [along_small p q _ s h2, along_small p q _ s h2]
    by_cases hb : s.reg1 = 0
    · rw [v2_dec n s (by omega) hb] at h
      rw [along_dec p q _ s (by omega) hb, along_dec p q _ s (by omega) hb, ih _ _ h]
    · cases hc : sub178b_v2 n (enter s) with
      | none =>
        rw [sub178b_v2, if_neg (by omega), if_neg (by omega), if_neg (by omega),
          if_neg hb, hc] at h
        simp at h
      | some u =>
        rw [v2_call n s u (by omega) hb hc] at h
        rw [along_call p q n s u (by omega) hb hc,
          along_call p q _ s u (by omega) hb (sub178b_v2_fuel_succ _ _ _ hc),
          ih _ _ hc, ih _ _ h]

theorem along_stable (p : State → Bool) (q : State → State → Bool) {n m : Nat}
    {s t : State} (hnm : n ≤ m) (h : sub178b_v2 n s = some t) :
    along p q m s = along p q n s := by
  induction hnm with
  | refl => rfl
  | step hm ih => rw [along_stable_succ p q _ s t (sub178b_v2_fuel_mono hm h), ih]

/-- A returning iteration with a recursive call: the call returned, and so did
the rest of the loop. -/
theorem v2_call_inv {n : Nat} {s t : State} (h : 3 ≤ s.reg0) (hb : s.reg1 ≠ 0)
    (hrun : sub178b_v2 (n + 1) s = some t) :
    ∃ u, sub178b_v2 n (enter s) = some u ∧ sub178b_v2 n (leave u) = some t := by
  cases hc : sub178b_v2 n (enter s) with
  | none =>
    rw [sub178b_v2, if_neg (by omega), if_neg (by omega), if_neg (by omega),
      if_neg hb, hc] at hrun
    simp at hrun
  | some u =>
    rw [v2_call n s u h hb hc] at hrun
    exact ⟨u, rfl, hrun⟩

/-! ## Purity, the third register, the companion output -/

/-- C11: for every `a, b, c` in `[0, 32768)` and any two contents `s`, `s'` of
the globals before the call (registers, stack pointer and stack array left by
earlier calls), `calculate(a, b, c)` returns from both and leaves the same
`reg0` and the same `reg1`; this holds for every amount of fuel that lets the
two runs return. -/
theorem calculate_pure_across_calls (a b c : Nat) (ha : a < 32768) (hb : b < 32768)
    (hc : c < 32768) (s s' : State) :
    (∃ n t t', calculate n a b c s = some t ∧ calculate n a b c s' = some t' ∧
      t.reg0 = t'.reg0 ∧ t.reg1 = t'.reg1) ∧
    ∀ n m t t', calculate n a b c s = some t → calculate m a b c s' = some t' →
      t.reg0 = t'.reg0 ∧ t.reg1 = t'.reg1 := by
  obtain ⟨n, t, hrun, _⟩ := calculate_total a b c ha hb hc s
  obtain ⟨t', hrun', e0, e1⟩ := calculate_pure s' hrun
  refine ⟨⟨n, t, t', hrun, hrun', e0, e1⟩, fun k m u u' hu hu' => ?_⟩
  obtain ⟨v, hv, f0, f1⟩ := calculate_pure s' hu
  have := sub178b_v2_det hv hu'
  rw [← this]
  exact ⟨f0, f1⟩

theorem calculate_pure_across_calls_witness :
    (∃ n t t', calculate n 4 1 7 initState = some t ∧
      calculate n 4 1 7 (setup 3 9 2 initState) = some t' ∧
      t.reg0 = t'.reg0 ∧ t.reg1 = t'.reg1) ∧
    ∀ n m t t', calculate n 4 1 7 initState = some t →
      calculate m 4 1 7 (setup 3 9 2 initState) = some t' →
      t.reg0 = t'.reg0 ∧ t.reg1 = t'.reg1 :=
  calculate_pure_across_calls 4 1 7 (by decide) (by decide) (by decide) initState
    (setup 3 9 2 initState)

/-- A returning run of `sub178b_v2` leaves `reg7` as it was. -/
theorem v2_reg7 : ∀ (n : Nat) (s t : State), sub178b_v2 n s = some t → t.reg7 = s.reg7 := by
  intro n
  induction n with
  | zero => intro s t h; simp [sub178b_v2] at h
  | succ n ih =>
    intro s t h
    rw [sub178b_v2] at h
    split_ifs at h with h0 h1 h2 h3
    · cases h; rfl
    · cases h; rfl
    · cases h; rfl
    · exact ih { s with reg0 := dec16 s.reg0, reg1 := s.reg7 } t h
    · cases hc : sub178b_v2 n (enter s) with
      | none => rw [hc] at h; simp at h
      | some u =>
        rw [hc] at h
        have h1 : u.reg7 = s.reg7 := ih (enter s) u hc
        have h2 : t.reg7 = u.reg7 := ih (leave u) t h
        rw [h2, h1]

/-- A returning run of `sub178b` leaves `reg7` as it was. -/
theorem brute_reg7 : ∀ (n : Nat) (s t : State), sub178b n s = some t → t.reg7 = s.reg7 := by
  intro n
  induction n with
  | zero => intro s t h; simp [sub178b] at h
  | succ n ih =>
    intro s t h
    rw [sub178b] at h
    split_ifs at h with h0 h1
    · cases h; rfl
    · exact ih { s with reg0 := dec16 s.reg0, reg1 := s.reg7 } t h
    · cases hc : sub178b n (enter s) with
      | none => rw [hc] at h; simp at h
      | some u =>
        rw [hc] at h
        have h1 : u.reg7 = s.reg7 := ih (enter s) u hc
        have h2 : t.reg7 = u.reg7 := ih (leave u) t h
        rw [h2, h1]

/-- At the start of every loop iteration of a run, `reg7` is what it was at
the start of the run. -/
theorem along_reg7 (c : Nat) : ∀ (n : Nat) (s t : State), s.reg7 = c →
    sub178b_v2 n s = some t → along (fun x => decide (x.reg7 = c)) anyPop n s = true := by
  intro n
  induction n with
  | zero => intro s t _ h; simp [sub178b_v2] at h
  | succ n ih =>
    intro s t h7 h
    have hp : decide (s.reg7 = c) = true := decide_eq_true h7
    by_cases h2 : s.reg0 ≤ 2
    · rw [along_small _ _ _ s h2]; exact hp
    by_cases hb : s.reg1 = 0
    · rw [v2_dec n s (by omega) hb] at h
      rw [along_dec _ _ _ s (by omega) hb,
        ih { s with reg0 := dec16 s.reg0, reg1 := s.reg7 } t h7 h, hp]
      rfl
    · cases hc : sub178b_v2 n (enter s) with
      | none =>
        rw [sub178b_v2, if_neg (by omega), if_neg (by omega), if_neg (by omega),
          if_neg hb, hc] at h
        simp at h
      | some u =>
        rw [v2_call n s u (by omega) hb hc] at h
        have hu7 : (leave u).reg7 = c := (v2_reg7 n _ _ hc).trans h7
        rw [along_call _ _ n s u (by omega) hb hc, ih (enter s) u h7 hc,
          ih (leave u) t hu7 h, hp]
        rfl

/-- C14: for every 16-bit `a, b, c`, `calculate(a, b, c)` returns with
`reg7 = c`, and `reg7 = c` holds at the start of every loop iteration of the
run; no returning run of `sub178b_v2` or of `sub178b` changes `reg7`, nor do
the statements around the recursive call and the final store. -/
theorem reg7_read_only (a b c : Nat) (ha : a < 65536) (hb : b < 65536) (hc : c < 65536)
    (s : State) :
    (∃ n t, calculate n a b c s = some t ∧ t.reg7 = c ∧
      along (fun x => decide (x.reg7 = c)) anyPop n (setup a b c s) = true) ∧
    (∀ (n : Nat) (x t : State), sub178b_v2 n x = some t → t.reg7 = x.reg7) ∧
    (∀ (n : Nat) (x t : State), sub178b n x = some t → t.reg7 = x.reg7) ∧
    ∀ x : State, (enter x).reg7 = x.reg7 ∧ (leave x).reg7 = x.reg7 ∧
      (setResult x).reg7 = x.reg7 := by
  obtain ⟨n, t, hrun, _⟩ := v2_total a b (setup a b c s) rfl rfl ha hb
    (show c < 65536 from hc) (show 0 < 65536 by omega)
  exact ⟨⟨n, t, hrun, v2_reg7 n _ _ hrun, along_reg7 c n _ t rfl hrun⟩, v2_reg7, brute_reg7,
    fun x => ⟨rfl, rfl, rfl⟩⟩

theorem reg7_read_only_witness :
    (∃ n t, calculate n 4 1 40000 initState = some t ∧ t.reg7 = 40000 ∧
      along (fun x => decide (x.reg7 = 40000)) anyPop n (setup 4 1 40000 initState) = true) ∧
    (∀ (n : Nat) (x t : State), sub178b_v2 n x = some t → t.reg7 = x.reg7) ∧
    (∀ (n : Nat) (x t : State), sub178b n x = some t → t.reg7 = x.reg7) ∧
    ∀ x : State, (enter x).reg7 = x.reg7 ∧ (leave x).reg7 = x.reg7 ∧
      (setResult x).reg7 = x.reg7 :=
  reg7_read_only 4 1 40000 (by decide) (by decide) (by decide) initState

/-! ## What `main` can print and call -/

/-- Every event of the loop of `main` entered with `r7` is the call for a
candidate `c` with `r7 ≤ c < 32768`, or the line printed after such a call that
left `reg0 = TARGET`.  This holds for every fuel that lets the loop finish. -/
theorem mainLoop_events (N : Nat) : ∀ (k r7 : Nat) (s : State) (evs : List Event)
    (u : State), 32768 ≤ r7 + k → mainLoop N r7 s = some (evs, u) →
    ∀ e, e ∈ evs → ∃ c, r7 ≤ c ∧ c < 32768 ∧
      (e = Event.call 4 1 c ∨
        ∃ s' t, calculate N 4 1 c s' = some t ∧ t.reg0 = TARGET ∧
          e = Event.report 4 1 c t.reg0 t.reg1) := by
  intro k
  induction k with
  | zero =>
    intro r7 s evs u hk h e he
    rw [mainLoop, if_neg (by omega)] at h
    cases h
    simp at he
  | succ k ih =>
    intro r7 s evs u hk h e he
    by_cases hlt : r7 < 32768
    · rw [mainLoop, if_pos hlt] at h
      cases hc : calculate N 4 1 r7 s with
      | none => rw [hc] at h; simp at h
      | some t =>
        rw [hc] at h
        dsimp only at h
        cases hl : mainLoop N (inc16 r7) t with
        | none => rw [hl] at h; simp at h
        | some res =>
          obtain ⟨rest, v⟩ := res
          rw [hl] at h
          dsimp only at h
          rw [inc16_small r7 hlt] at hl
          have hrest : ∀ e, e ∈ rest → ∃ c, r7 ≤ c ∧ c < 32768 ∧
              (e = Event.call 4 1 c ∨
                ∃ s' t, calculate N 4 1 c s' = some t ∧ t.reg0 = TARGET ∧
                  e = Event.report 4 1 c t.reg0 t.reg1) := by
            intro e he
            obtain ⟨c, h1, h2, h3⟩ := ih (r7 + 1) t rest v (by omega) hl e he
            exact ⟨c, by omega, h2, h3⟩
          by_cases hm : t.reg0 = TARGET
          · simp only [hm, if_true, Option.some.injEq, Prod.mk.injEq] at h
            obtain ⟨h, _⟩ := h
            subst h
            rcases List.mem_cons.mp he with he | he
            · exact ⟨r7, Nat.le_refl _, hlt, Or.inl he⟩
            rcases List.mem_cons.mp he with he | he
            · exact ⟨r7, Nat.le_refl _, hlt, Or.inr ⟨s, t, hc, hm, by rw [he, hm]⟩⟩
            · exact hrest e he
          · simp only [hm, if_false, Option.some.injEq, Prod.mk.injEq] at h
            obtain ⟨h, _⟩ := h
            subst h
            rcases List.mem_cons.mp he with he | he
            · exact ⟨r7, Nat.le_refl _, hlt, Or.inl he⟩
            · exact hrest e he
    · rw [mainLoop, if_neg hlt] at h
      cases h
      simp at he

/-- The events of `main` after the banner, for every fuel that lets it finish. -/
theorem main_events (N : Nat) (evs : List Event) (u : State) (h : main N = some (evs, u)) :
    ∀ e, e ∈ evs → e = Event.banner ∨ ∃ c, 1 ≤ c ∧ c < 32768 ∧
      (e = Event.call 4 1 c ∨
        ∃ s' t, calculate N 4 1 c s' = some t ∧ t.reg0 = TARGET ∧
          e = Event.report 4 1 c t.reg0 t.reg1) := by
  intro e he
  unfold main at h
  cases hl : mainLoop N 1 initState with
  | none => rw [hl] at h; simp at h
  | some res =>
    obtain ⟨rest, v⟩ := res
    rw [hl] at h
    simp only [Option.some.injEq, Prod.mk.injEq] at h
    obtain ⟨h, _⟩ := h
    subst h
    rcases List.mem_cons.mp he with he | he
    · exact Or.inl he
    · exact Or.inr (mainLoop_events N 32767 1 initState rest v (by omega) hl e he)

/-- C12, as stated, fails: no run of `main` calls `calculate(4, 1, 0)`. -/
theorem main_never_calls_zero :
    ¬ ∃ N evs u, main N = some (evs, u) ∧ Event.call 4 1 0 ∈ evs := by
  rintro ⟨N, evs, u, h, he⟩
  rcases main_events N evs u h _ he with hb | ⟨c, h1, _, hc | ⟨_, _, _, _, hc⟩⟩
  · cases hb
  · cases hc; omega
  · cases hc

/-- C12, amended: the candidates enumerated by the search start at `c = 1`:
`main` calls `calculate(4, 1, 32767)` (and `calculate(4, 1, 1)`), and it never
calls `calculate(4, 1, 0)`. -/
theorem main_calls_last_not_zero :
    (∃ N evs u, main N = some (evs, u) ∧ Event.call 4 1 32767 ∈ evs ∧
      Event.call 4 1 1 ∈ evs) ∧
    ∀ N evs u, main N = some (evs, u) → Event.call 4 1 0 ∉ evs := by
  constructor
  · obtain ⟨N, r0, r1, u, _, _, hmain⟩ := main_trace
    refine ⟨N, _, u, hmain, ?_, ?_⟩
    · refine List.mem_cons_of_mem _ (List.mem_flatMap.mpr ⟨32767, by simp, ?_⟩)
      exact List.mem_cons_self _ _
    · refine List.mem_cons_of_mem _ (List.mem_flatMap.mpr ⟨1, by simp, ?_⟩)
      exact List.mem_cons_self _ _
  · intro N evs u h he
    rcases main_events N evs u h _ he with hb | ⟨c, h1, _, hc | ⟨_, _, _, _, hc⟩⟩
    · cases hb
    · cases hc; omega
    · cases hc

/-- C13, as stated, fails: `calculate(0, 40000, 0)` is not rejected, it leaves
`reg0 = 7233`, which is `40000 + 1` masked to 15 bits. -/
theorem calculate_accepts_out_of_range :
    evaluate 1 0 40000 0 initState = some 7233 ∧ (40000 + 1) % 32768 = 7233 :=
  ⟨evaluate_0 0 40000 0 initState, rfl⟩

/-- C13, amended: `calculate` does not check its arguments.  For `a` equal to 0
or 1 and 16-bit `b, c` of which at least one is 32768 or more, the call is not
rejected: with any positive fuel it returns, leaving `reg0` below 32768, namely
`(b + 1) mod 32768` for `a = 0` and `(b + c + 1) mod 32768` for `a = 1`, which
is the value that the call with `b` and `c` reduced to 15 bits leaves.  (For
these `a` the only sums are `reg1 + 1` and `reg1 + reg7`, at most 131070, so
no `int` overflows.) -/
theorem calculate_truncates_out_of_range (a b c : Nat) (ha : a ≤ 1) (_hb : b < 65536)
    (_hc : c < 65536) (_hout : 32768 ≤ b ∨ 32768 ≤ c) (s : State) (n : Nat) :
    ∃ t, calculate (n + 1) a b c s = some t ∧ t.reg0 < 32768 ∧
      (a = 0 → t.reg0 = (b + 1) % 32768) ∧
      (a = 1 → t.reg0 = (b + c + 1) % 32768) ∧
      evaluate (n + 1) a (b % 32768) (c % 32768) s = some t.reg0 := by
  have h15 : ∀ x : Nat, (x + 1) &&& 0x7fff < 32768 := by
    intro x; rw [mask15]; omega
  rcases Nat.le_one_iff_eq_zero_or_eq_one.mp ha with h | h
  · subst h
    refine ⟨_, calculate_0 n b c s, h15 b, fun _ => mask15 _, fun h => by omega, ?_⟩
    rw [evaluate_0]
    refine congrArg some ?_
    show _ = (b + 1) &&& 0x7fff
    rw [mask15]; omega
  · subst h
    have e : (((b + c) &&& 0x7fff) + 1) &&& 0x7fff = (b + c + 1) % 32768 := by
      rw [mask15, mask15]; omega
    refine ⟨_, calculate_1 n b c s, h15 _, fun h => by omega, fun _ => e, ?_⟩
    rw [evaluate_1]
    refine congrArg some ?_
    show _ = (((b + c) &&& 0x7fff) + 1) &&& 0x7fff
    rw [e]; omega

theorem calculate_truncates_out_of_range_witness :
    ∃ t, calculate (0 + 1) 0 40000 0 initState = some t ∧ t.reg0 < 32768 ∧
      (0 = 0 → t.reg0 = (40000 + 1) % 32768) ∧
      (0 = 1 → t.reg0 = (40000 + 0 + 1) % 32768) ∧
      evaluate (0 + 1) 0 (40000 % 32768) (0 % 32768) initState = some t.reg0 :=
  calculate_truncates_out_of_range 0 40000 0 (by decide) (by decide) (by decide)
    (Or.inl (by decide)) initState 0

/-- C17: for every `a, b, c` in `[0, 32768)`, `calculate(a, b, c)` returns with
`reg1` in `[0, 32768)` and `reg0 = (reg1 + 1) mod 32768`; `main` finishes, and
every line it prints for a match shows `r0 = 6` and `r1 = 5`. -/
theorem companion_output (a b c : Nat) (ha : a < 32768) (hb : b < 32768) (hc : c < 32768)
    (s : State) :
    (∃ n t, calculate n a b c s = some t ∧ t.reg1 < 32768 ∧
      t.reg0 = (t.reg1 + 1) % 32768) ∧
    (∃ N evs u, main N = some (evs, u)) ∧
    ∀ N evs u, main N = some (evs, u) → ∀ i0 i1 i7 r0 r1,
      Event.report i0 i1 i7 r0 r1 ∈ evs → r0 = 6 ∧ r1 = 5 := by
  have hpost : ∀ (a b c : Nat), a < 32768 → b < 32768 → c < 32768 → ∀ (s t : State) (n : Nat),
      calculate n a b c s = some t → t.reg1 < 32768 ∧ t.reg0 = (t.reg1 + 1) % 32768 := by
    intro a b c ha hb hc s t n hrun
    obtain ⟨m, t', hrun', _, _, p3, p4, p5, _⟩ := calculate_total a b c ha hb hc s
    have := sub178b_v2_det hrun hrun'
    subst this
    refine ⟨?_, p3⟩
    by_cases h0 : a = 0
    · have : t.reg1 = b := p5 h0
      omega
    · exact p4 h0
  refine ⟨?_, ?_, ?_⟩
  · obtain ⟨n, t, hrun, _⟩ := calculate_total a b c ha hb hc s
    exact ⟨n, t, hrun, hpost a b c ha hb hc s t n hrun⟩
  · obtain ⟨N, _, _, u, _, _, hmain⟩ := main_trace
    exact ⟨N, _, u, hmain⟩
  · intro N evs u h i0 i1 i7 r0 r1 he
    rcases main_events N evs u h _ he with hb | ⟨c, _, hc, hcall | ⟨s', t, hrun, ht, hrep⟩⟩
    · cases hb
    · cases hcall
    · obtain ⟨h1, h2⟩ := hpost 4 1 c (by omega) (by omega) hc s' t N hrun
      cases hrep
      have ht' : t.reg0 = 6 := ht
      exact ⟨ht', by omega⟩

theorem companion_output_witness :
    (∃ n t, calculate n 4 1 25734 initState = some t ∧ t.reg1 < 32768 ∧
      t.reg0 = (t.reg1 + 1) % 32768) ∧
    (∃ N evs u, main N = some (evs, u)) ∧
    ∀ N evs u, main N = some (evs, u) → ∀ i0 i1 i7 r0 r1,
      Event.report i0 i1 i7 r0 r1 ∈ evs → r0 = 6 ∧ r1 = 5 :=
  companion_output 4 1 25734 (by decide) (by decide) (by decide) initState

/-! ## The closed form for `reg0 = 2` -/

theorem closedFormExact_of_lt (s : State) (h1 : s.reg1 < 32768) (h7 : s.reg7 < 32768) :
    closedFormExact s = true := by
  unfold closedFormExact
  by_cases h2 : s.reg0 = 2
  · rw [if_pos h2]
    have hm : (s.reg1 + 2) * s.reg7 ≤ 32769 * 32767 :=
      Nat.mul_le_mul (by omega) (by omega)
    have hs : s.reg1 + (s.reg1 + 2) * s.reg7 < 2 ^ 31 := by
      have : (2 : Nat) ^ 31 = 2147483648 := by norm_num
      omega
    rw [decide_eq_true h1, decide_eq_true h7, decide_eq_true hs]
    rfl
  · rw [if_neg h2]

theorem v2_fuel_pos {n : Nat} {s t : State} (h : sub178b_v2 n s = some t) :
    ∃ m, n = m + 1 := by
  cases n with
  | zero => simp [sub178b_v2] at h
  | succ m => exact ⟨m, rfl⟩

theorem v2_small_result {n : Nat} {s t : State} (h2 : s.reg0 ≤ 2)
    (h : sub178b_v2 n s = some t) : t.reg0 < 32768 := by
  obtain ⟨m, rfl⟩ := v2_fuel_pos h
  obtain ⟨t', ht', _, _, p3, _⟩ := v2_total_small s h2
  have := sub178b_v2_det h ht'
  subst this
  omega

/-- With `reg1` and `reg7` below 32768 at the start, they are below 32768 at
the start of every loop iteration of the run, so the closed form for 2 is
computed without overflow wherever it is reached. -/
theorem along_closed_form : ∀ (n : Nat) (s t : State), s.reg1 < 32768 → s.reg7 < 32768 →
    sub178b_v2 n s = some t →
    along closedFormExact anyPop n s = true ∧ t.reg0 < 32768 := by
  intro n
  induction n with
  | zero => intro s t _ _ h; simp [sub178b_v2] at h
  | succ n ih =>
    intro s t h1 h7 h
    have hp := closedFormExact_of_lt s h1 h7
    by_cases h2 : s.reg0 ≤ 2
    · rw [along_small _ _ _ s h2]
      exact ⟨hp, v2_small_result h2 h⟩
    by_cases hb : s.reg1 = 0
    · rw [v2_dec n s (by omega) hb] at h
      obtain ⟨a1, a2⟩ := ih { s with reg0 := dec16 s.reg0, reg1 := s.reg7 } t h7 h7 h
      rw [along_dec _ _ _ s (by omega) hb, a1, hp]
      exact ⟨rfl, a2⟩
    · cases hc : sub178b_v2 n (enter s) with
      | none =>
        rw [sub178b_v2, if_neg (by omega), if_neg (by omega), if_neg (by omega),
          if_neg hb, hc] at h
        simp at h
      | some u =>
        rw [v2_call n s u (by omega) hb hc] at h
        have he1 : (enter s).reg1 < 32768 := by
          show dec16 s.reg1 < 32768
          rw [dec16_pos _ (by omega) (by omega)]; omega
        obtain ⟨a1, a2⟩ := ih (enter s) u he1 h7 hc
        have hu7 : (leave u).reg7 < 32768 := by
          show u.reg7 < 32768
          rw [v2_reg7 n _ _ hc]; exact h7
        obtain ⟨b1, b2⟩ := ih (leave u) t a2 hu7 h
        rw [along_call _ _ n s u (by omega) hb hc, a1, b1, hp]
        exact ⟨rfl, b2⟩

/-- C18: for every `a, b, c` in `[0, 32768)`, `calculate(a, b, c)` returns, and
whenever the branch `reg0 == 2` is reached during the run, `reg1` and `reg7` are
below 32768 and `reg1 + (reg1 + 2) * reg7` is below `2 ^ 31`; the value stored
by that branch is this sum modulo 32768; and `calculate(2, b, c)` leaves
`reg1 = (b + (b + 2) * c) mod 32768` and `reg0 = (b + (b + 2) * c + 1) mod 32768`. -/
theorem closed_form_two_exact (a b c : Nat) (ha : a < 32768) (hb : b < 32768)
    (hc : c < 32768) (s : State) :
    (∃ n t, calculate n a b c s = some t ∧
      along closedFormExact anyPop n (setup a b c s) = true) ∧
    (∀ x : State, (x.reg1 + (x.reg1 + 2) * x.reg7) &&& 0x7fff
      = (x.reg1 + (x.reg1 + 2) * x.reg7) % 32768) ∧
    ∀ n, evaluate (n + 1) 2 b c s = some ((b + (b + 2) * c + 1) % 32768) ∧
      (calculate (n + 1) 2 b c s).map State.reg1 = some ((b + (b + 2) * c) % 32768) := by
  obtain ⟨n, t, hrun, _⟩ := calculate_total a b c ha hb hc s
  refine ⟨⟨n, t, hrun, (along_closed_form n (setup a b c s) t hb hc hrun).1⟩,
    fun x => mask15 _, fun n => ⟨evaluate_2 n b c s, ?_⟩⟩
  rw [calculate_2]
  exact congrArg some (mask15 _)

theorem closed_form_two_exact_witness :
    (∃ n t, calculate n 4 1 25734 initState = some t ∧
      along closedFormExact anyPop n (setup 4 1 25734 initState) = true) ∧
    (∀ x : State, (x.reg1 + (x.reg1 + 2) * x.reg7) &&& 0x7fff
      = (x.reg1 + (x.reg1 + 2) * x.reg7) % 32768) ∧
    ∀ n, evaluate (n + 1) 2 1 25734 initState
        = some ((1 + (1 + 2) * 25734 + 1) % 32768) ∧
      (calculate (n + 1) 2 1 25734 initState).map State.reg1
        = some ((1 + (1 + 2) * 25734) % 32768) :=
  closed_form_two_exact 4 1 25734 (by decide) (by decide) (by decide) initState

/-! ## Stack discipline -/

theorem pushNoWrap_call {s : State} (h : 3 ≤ s.reg0) (hb : s.reg1 ≠ 0)
    (hp : pushNoWrap s = true) : s.sp < 65535 := by
  unfold pushNoWrap at hp
  rw [if_neg (by omega), if_neg (by omega), if_neg (by omega), if_neg hb] at hp
  exact of_decide_eq_true hp

/-- A run whose pushes never wrap the stack pointer returns with the stack
pointer restored and the entries below it unchanged, and each of its pops
reads the value pushed by the same iteration. -/
theorem v2_discipline : ∀ (n : Nat) (s t : State), s.sp < 65536 →
    sub178b_v2 n s = some t → along pushNoWrap anyPop n s = true →
    t.sp = s.sp ∧ (∀ i, i < s.sp → t.stack i = s.stack i) ∧
      along anyHead popsPushed n s = true := by
  intro n
  induction n with
  | zero => intro s t _ h; simp [sub178b_v2] at h
  | succ n ih =>
    intro s t hsp h hnw
    by_cases h2 : s.reg0 ≤ 2
    · obtain ⟨t', ht', p1, _⟩ := v2_total_small s h2
      have e := sub178b_v2_det h (sub178b_v2_fuel_mono (Nat.succ_le_succ (Nat.zero_le n)) ht')
      have hst : t'.stack = s.stack := by
        by_cases c0 : s.reg0 = 0
        · rw [v2_zero 0 s c0] at ht'; cases ht'; rfl
        by_cases c1 : s.reg0 = 1
        · rw [v2_one 0 s c1] at ht'; cases ht'; rfl
        · rw [v2_two 0 s (by omega)] at ht'; cases ht'; rfl
      rw [along_small _ _ _ s h2]
      subst e
      exact ⟨p1, fun i _ => by rw [hst], rfl⟩
    by_cases hb : s.reg1 = 0
    · rw [v2_dec n s (by omega) hb] at h
      rw [along_dec _ _ _ s (by omega) hb, Bool.and_eq_true] at hnw
      obtain ⟨a1, a2, a3⟩ :=
        ih { s with reg0 := dec16 s.reg0, reg1 := s.reg7 } t hsp h hnw.2
      rw [along_dec _ _ _ s (by omega) hb, a3]
      exact ⟨a1, a2, rfl⟩
    · cases hc : sub178b_v2 n (enter s) with
      | none =>
        rw [sub178b_v2, if_neg (by omega), if_neg (by omega), if_neg (by omega),
          if_neg hb, hc] at h
        simp at h
      | some u =>
        rw [v2_call n s u (by omega) hb hc] at h
        rw [along_call _ _ n s u (by omega) hb hc] at hnw
        simp only [Bool.and_eq_true] at hnw
        obtain ⟨hps, hne, _, hnl⟩ := hnw
        have hlt : s.sp < 65535 := pushNoWrap_call (by omega) hb hps
        have hesp : (enter s).sp = s.sp + 1 := by
          show inc16 s.sp = s.sp + 1
          unfold inc16; omega
        obtain ⟨a1, a2, a3⟩ := ih (enter s) u (by rw [hesp]; omega) hc hne
        have hlsp : (leave u).sp = s.sp := by
          show dec16 u.sp = s.sp
          rw [a1, hesp]; unfold dec16; omega
        have hpop : u.stack (dec16 u.sp) = s.reg0 := by
          rw [show dec16 u.sp = s.sp from hlsp, a2 s.sp (by rw [hesp]; omega), enter_stack,
            if_pos rfl]
        obtain ⟨b1, b2, b3⟩ := ih (leave u) t (by rw [hlsp]; exact hsp) h hnl
        refine ⟨b1.trans hlsp, fun i hi => ?_, ?_⟩
        · rw [b2 i (by rw [hlsp]; exact hi)]
          show u.stack i = s.stack i
          rw [a2 i (by rw [hesp]; omega), enter_stack, if_neg (by omega)]
        · rw [along_call _ _ n s u (by omega) hb hc, a3, b3]
          have : popsPushed s u = true := decide_eq_true hpop
          rw [this]
          rfl

/-- The run of the routine on `reg0 = 3`, `reg1 = 1`, `reg7 = 5`, `sp = 0`. -/
theorem run_3_1_5 :
    sub178b_v2 4 (setup 3 1 5 initState)
      = some { reg0 := 257, reg1 := 256, reg7 := 5, sp := 0,
               stack := fun i => if i = 0 then 3 else 0 } := by
  have e1 : sub178b_v2 3 (enter (setup 3 1 5 initState))
      = some { reg0 := 41, reg1 := 40, reg7 := 5, sp := inc16 0,
               stack := fun i => if i = 0 then 3 else 0 } := by
    rw [v2_dec 2 _ (show 3 ≤ 3 by omega) (show dec16 1 = 0 from dec16_one),
      v2_two 1 _ (show dec16 3 = 2 from dec16_three)]
    rfl
  rw [v2_call 3 _ _ (show 3 ≤ 3 by omega) (show (1 : Nat) ≠ 0 by omega) e1,
    v2_two 2 _ (by
      show dec16 (if dec16 (inc16 0) = 0 then 3 else 0) = 2
      rw [dec16_inc16 0 (by omega), if_pos rfl, dec16_three])]
  show some (State.mk _ _ _ (dec16 (inc16 0)) _) = _
  rw [dec16_inc16 0 (by omega)]
  rfl

/-- C19: a call of `sub178b_v2` that returns, entered with a 16-bit stack
pointer and run without any push wrapping the stack pointer (every push is
made with `sp < 65535`), returns with the stack pointer it was entered with
and with all the stack entries below it unchanged; each of its pops reads the
value that the same loop iteration pushed. -/
theorem stack_discipline (n : Nat) (s t : State) (hsp : s.sp < 65536)
    (hrun : sub178b_v2 n s = some t) (hnw : along pushNoWrap anyPop n s = true) :
    t.sp = s.sp ∧ (∀ i, i < s.sp → t.stack i = s.stack i) ∧
      along anyHead popsPushed n s = true :=
  v2_discipline n s t hsp hrun hnw

theorem stack_discipline_witness :
    (State.mk 257 256 5 0 (fun i => if i = 0 then 3 else 0)).sp
        = (setup 3 1 5 initState).sp ∧
      (∀ i, i < (setup 3 1 5 initState).sp →
        (State.mk 257 256 5 0 (fun i => if i = 0 then 3 else 0)).stack i
          = (setup 3 1 5 initState).stack i) ∧
      along anyHead popsPushed 4 (setup 3 1 5 initState) = true :=
  stack_discipline 4 (setup 3 1 5 initState) _ (by decide) run_3_1_5 (by decide!)

/-! ## The stack pointer during the search -/

theorem spBounded_of_le (s : State) (h : s.sp ≤ 32768) : spBounded s = true := by
  unfold spBounded
  have h2 : s.sp < STACK_SIZE := by unfold STACK_SIZE; omega
  rw [decide_eq_true h, decide_eq_true h2]
  rfl

theorem popInBounds_of (s u : State) (h0 : 0 < u.sp) (h : u.sp ≤ 32768) :
    popInBounds s u = true := by
  unfold popInBounds
  have h2 : dec16 u.sp < STACK_SIZE := by
    rw [dec16_pos _ h0 (by omega)]; unfold STACK_SIZE; omega
  rw [decide_eq_true h0, decide_eq_true h2]
  rfl

/-- A run on `reg0 ≤ 2` makes one loop iteration. -/
theorem along_small_run (p : State → Bool) (q : State → State → Bool) {n : Nat}
    {s t : State} (h2 : s.reg0 ≤ 2) (h : sub178b_v2 n s = some t) :
    along p q n s = p s := by
  obtain ⟨m, rfl⟩ := v2_fuel_pos h
  exact along_small p q m s h2

/-- The run on `reg0 = 3`, `reg1 = b`, entered with `sp + b ≤ 32768`: the stack
pointer stays at most 32768 and no pop wraps it. -/
theorem along_level3_sp : ∀ (n b : Nat) (s t : State), s.reg0 = 3 → s.reg1 = b →
    s.sp + b ≤ 32768 → sub178b_v2 n s = some t →
    along spBounded popInBounds n s = true := by
  intro n
  induction n with
  | zero => intro b s t _ _ _ h; simp [sub178b_v2] at h
  | succ n ih =>
    intro b s t h0 h1 hsb h
    have hp := spBounded_of_le s (by omega)
    by_cases hb : s.reg1 = 0
    · rw [v2_dec n s (by omega) hb] at h
      rw [along_dec _ _ _ s (by omega) hb, hp,
        along_small_run _ _ (show dec16 s.reg0 ≤ 2 by rw [h0, dec16_three]) h]
      exact spBounded_of_le _ (show s.sp ≤ 32768 by omega)
    · obtain ⟨u, hc, h⟩ := v2_call_inv (by omega) hb h
      have hesp : (enter s).sp = s.sp + 1 := by
        show inc16 s.sp = s.sp + 1
        exact inc16_small _ (by omega)
      have he1 : (enter s).reg1 = b - 1 := by
        show dec16 s.reg1 = b - 1
        rw [dec16_pos _ (by omega) (by omega), h1]
      have a := ih (b - 1) (enter s) u h0 he1 (by rw [hesp]; omega) hc
      have husp : u.sp = s.sp + 1 := (v2_sp n _ _ (by rw [hesp]; omega) hc).trans hesp
      -- the pop returns the 3 that was pushed
      obtain ⟨n', u', hrun', _, _, _, _, uv, _⟩ :=
        v2_level3 (b - 1) (enter s) h0 he1 (by omega) (by rw [hesp]; omega)
      have e := sub178b_v2_det hc hrun'
      subst e
      have hpop : u.stack s.sp = 3 := by
        rcases uv s.sp with g | g
        · rw [g, enter_stack, if_pos rfl, h0]
        · exact g
      have hlsp : (leave u).sp = s.sp := by
        show dec16 u.sp = s.sp
        rw [husp, dec16_pos _ (by omega) (by omega)]; rfl
      have hl0 : (leave u).reg0 = 2 := by
        show dec16 (u.stack (dec16 u.sp)) = 2
        rw [show dec16 u.sp = s.sp from hlsp, hpop, dec16_three]
      rw [along_call _ _ n s u (by omega) hb hc, hp, a,
        popInBounds_of s u (by omega) (by omega),
        along_small_run _ _ (by omega) h]
      exact spBounded_of_le _ (by rw [hlsp]; omega)

/-- The run on `reg0 = 4`, `reg1 = 0`, entered with `sp + reg7 ≤ 32768`. -/
theorem along_level4_zero_sp (n : Nat) (s t : State) (h0 : s.reg0 = 4) (h1 : s.reg1 = 0)
    (hsb : s.sp + s.reg7 ≤ 32768) (h : sub178b_v2 n s = some t) :
    along spBounded popInBounds n s = true := by
  obtain ⟨m, rfl⟩ := v2_fuel_pos h
  rw [v2_dec m s (by omega) h1] at h
  rw [along_dec _ _ _ s (by omega) h1, spBounded_of_le s (by omega),
    along_level3_sp m s.reg7 { s with reg0 := dec16 s.reg0, reg1 := s.reg7 } t
      (by show dec16 s.reg0 = 3; rw [h0, dec16_four]) rfl hsb h]
  rfl

/-- The run on `reg0 = 4`, `reg1 = 1`, entered with `sp = 0`: the stack pointer
goes up to `max (1 + reg7) (level4 reg7 0)`, which is at most 32768. -/
theorem along_level4_one_sp (n : Nat) (s t : State) (h0 : s.reg0 = 4) (h1 : s.reg1 = 1)
    (h7 : s.reg7 < 32768) (hsp : s.sp = 0) (h : sub178b_v2 n s = some t) :
    along spBounded popInBounds n s = true := by
  obtain ⟨m, rfl⟩ := v2_fuel_pos h
  obtain ⟨u, hcall, hrest⟩ := v2_call_inv (by omega) (by omega) h
  have hesp : (enter s).sp = 1 := by
    show inc16 s.sp = 1
    rw [hsp]; exact inc16_small _ (by omega)
  have he1 : (enter s).reg1 = 0 := by
    show dec16 s.reg1 = 0
    rw [h1, dec16_one]
  have a4 := along_level4_zero_sp m (enter s) u h0 he1
    (by rw [hesp]; show 1 + s.reg7 ≤ 32768; omega) hcall
  have husp : u.sp = 1 := (v2_sp _ _ _ (by rw [hesp]; omega) hcall).trans hesp
  -- what the call returns, and the 4 it leaves on the slot of the push
  obtain ⟨n', u', hrun', u0, _, _, uf, _, _⟩ :=
    v2_level4 0 (enter s) 32768 h0 he1 (by omega) h7
      (by rw [hesp]; omega) (by omega) (by show 0 + s.reg7 ≤ 32768; omega)
      (fun j hj => absurd hj (Nat.not_lt_zero j))
  have e := sub178b_v2_det hcall hrun'
  subst e
  have hpop : u.stack s.sp = 4 := (pop_of_frame (by omega) uf).trans h0
  have hlsp : (leave u).sp = 0 := by
    show dec16 u.sp = 0
    rw [husp, dec16_one]
  have hl0 : (leave u).reg0 = 3 := by
    show dec16 (u.stack (dec16 u.sp)) = 3
    rw [show dec16 u.sp = 0 from hlsp, ← hsp, hpop, dec16_four]
  have hlt := level4_lt s.reg7 0
  have hl1 : (leave u).reg1 = level4 s.reg7 0 := u0
  have b3 := along_level3_sp m (level4 s.reg7 0) (leave u) t hl0 hl1
    (by rw [hlsp]; omega) hrest
  rw [along_call _ _ _ s u (by omega) (by omega) hcall, a4, b3,
    popInBounds_of s u (by omega) (by omega), spBounded_of_le s (by omega)]
  rfl

/-- C16: for every `c` in `1..32767`, `calculate(4, 1, c)` returns with `sp = 0`,
and at the start of every loop iteration of the run the stack pointer is at
most 32768 (so it indexes `stack` below `STACK_SIZE` and no `sp++` wraps), and
every pop is made with a positive stack pointer. -/
theorem search_stack_bound (c : Nat) (_h1 : 1 ≤ c) (hc : c < 32768) (s : State) :
    ∃ n t, calculate n 4 1 c s = some t ∧ t.sp = 0 ∧
      along spBounded popInBounds n (setup 4 1 c s) = true := by
  obtain ⟨n, t, hrun, p1, _⟩ := calculate_total 4 1 c (by omega) (by omega) hc s
  exact ⟨n, t, hrun, p1, along_level4_one_sp n (setup 4 1 c s) t rfl rfl hc rfl hrun⟩

theorem search_stack_bound_witness :
    ∃ n t, calculate n 4 1 32767 initState = some t ∧ t.sp = 0 ∧
      along spBounded popInBounds n (setup 4 1 32767 initState) = true :=
  search_stack_bound 32767 (by decide) (by decide) initState

/-! ## The operands of the decrements -/

theorem headDecOK_true (s : State) : headDecOK s = true := by
  unfold headDecOK
  by_cases h0 : s.reg0 = 0
  · rw [if_pos h0]
  by_cases h1 : s.reg0 = 1
  · rw [if_neg h0, if_pos h1]
  by_cases h2 : s.reg0 = 2
  · rw [if_neg h0, if_neg h1, if_pos h2]
  by_cases hb : s.reg1 = 0
  · rw [if_neg h0, if_neg h1, if_neg h2, if_pos hb]
    exact decide_eq_true (by omega)
  · rw [if_neg h0, if_neg h1, if_neg h2, if_neg hb]
    exact decide_eq_true (by omega)

/-- The decrements `reg0--` and `reg1--` and the `- 1` applied to the popped
value never meet a zero, however deep the recursion: a popped value is at
least 3 even when the stack pointer has wrapped. -/
theorem along_value_decrements : ∀ (n : Nat) (s t : State), s.reg0 < 65536 →
    s.reg1 < 65536 → s.reg7 < 65536 → s.sp < 65536 → sub178b_v2 n s = some t →
    along headDecOK popValueDecOK n s = true := by
  intro n
  induction n with
  | zero => intro s t _ _ _ _ h; simp [sub178b_v2] at h
  | succ n ih =>
    intro s t h0 h1 h7 hsp h
    have hp := headDecOK_true s
    by_cases h2 : s.reg0 ≤ 2
    · rw [along_small _ _ _ s h2]; exact hp
    by_cases hb : s.reg1 = 0
    · rw [v2_dec n s (by omega) hb] at h
      rw [along_dec _ _ _ s (by omega) hb, hp,
        ih { s with reg0 := dec16 s.reg0, reg1 := s.reg7 } t
          (by show dec16 s.reg0 < 65536; rw [dec16_pos _ (by omega) h0]; omega) h7 h7 hsp h]
      rfl
    · obtain ⟨u, hc, hrest⟩ := v2_call_inv (by omega) hb h
      have he1 : (enter s).reg1 < 65536 := by
        show dec16 s.reg1 < 65536
        rw [dec16_pos _ (by omega) h1]; omega
      obtain ⟨n', u', hrun', q1, q2, q3, _, _, q6⟩ :=
        v2_total s.reg0 (enter s).reg1 (enter s) rfl rfl h0 he1 h7 (inc16_lt _)
      have e := sub178b_v2_det hc hrun'
      subst e
      have hlsp : (leave u).sp = s.sp := by
        show dec16 u.sp = s.sp
        rw [q1]; exact dec16_inc16 _ hsp
      have hpop : 3 ≤ u.stack s.sp ∧ u.stack s.sp ≤ s.reg0 := by
        rcases q6 s.sp with g | g
        · rw [g, enter_stack, if_pos rfl]; omega
        · exact g
      have hq : popValueDecOK s u = true := by
        unfold popValueDecOK
        rw [show dec16 u.sp = s.sp from hlsp]
        exact decide_eq_true (by omega)
      have a := ih (enter s) u h0 he1 h7 (inc16_lt _) hc
      have b := ih (leave u) t
        (by show dec16 (u.stack (dec16 u.sp)) < 65536
            rw [show dec16 u.sp = s.sp from hlsp, dec16_pos _ (by omega) (by omega)]; omega)
        (by show u.reg0 < 65536; omega)
        (by show u.reg7 < 65536; rw [show u.reg7 = s.reg7 from q2]; exact h7)
        (by rw [hlsp]; exact hsp) hrest
      rw [along_call _ _ n s u (by omega) hb hc, hp, a, hq, b]
      rfl

theorem along_enter_false (p : State → Bool) (q : State → State → Bool) (n : Nat)
    (s : State) (h : 3 ≤ s.reg0) (hb : s.reg1 ≠ 0)
    (hf : along p q n (enter s) = false) : along p q (n + 1) s = false := by
  cases hc : sub178b_v2 n (enter s) with
  | none => rw [along_call_none p q n s h hb hc, hf]; simp
  | some u => rw [along_call p q n s u h hb hc, hf]; simp

/-- On `reg0 = 3` with `sp + reg1 ≥ 65536` a push wraps the stack pointer to
0, and the pop that follows decrements a zero stack pointer. -/
theorem underflow_level3 : ∀ (b : Nat) (s : State), s.reg0 = 3 → s.reg1 = b →
    b < 65536 → s.sp < 65536 → 65536 ≤ s.sp + b →
    ∃ n, along headDecOK popDecOK n s = false := by
  intro b
  induction b with
  | zero => intro s _ _ _ h1 h2; omega
  | succ b ih =>
    intro s h0 h1 hb hsp hsb
    have he1 : (enter s).reg1 = b := by
      show dec16 s.reg1 = b
      rw [h1, dec16_pos _ (by omega) hb]; rfl
    by_cases hlast : s.sp = 65535
    · obtain ⟨n, u, hrun, _, usp, _⟩ :=
        v2_level3 b (enter s) h0 he1 (by omega) (inc16_lt _)
      have hu : u.sp = 0 := by
        rw [usp]
        show inc16 s.sp = 0
        rw [hlast]; unfold inc16; rfl
      refine ⟨n + 1, ?_⟩
      rw [along_call _ _ n s u (by omega) (by omega) hrun]
      have hq : popDecOK s u = false := by
        unfold popDecOK
        rw [hu]; rfl
      rw [hq]; simp
    · have hesp : (enter s).sp = s.sp + 1 := by
        show inc16 s.sp = s.sp + 1
        unfold inc16; omega
      obtain ⟨n, hn⟩ := ih (enter s) h0 he1 (by omega) (by rw [hesp]; omega)
        (by rw [hesp]; omega)
      exact ⟨n + 1, along_enter_false _ _ n s (by omega) (by omega) hn⟩

theorem underflow_level4 : ∀ (b : Nat) (s : State), s.reg0 = 4 → s.reg1 = b →
    s.reg7 < 65536 → s.sp + b < 65536 → 65536 ≤ s.sp + b + s.reg7 →
    ∃ n, along headDecOK popDecOK n s = false := by
  intro b
  induction b with
  | zero =>
    intro s h0 h1 h7 hsp hsb
    obtain ⟨n, hn⟩ := underflow_level3 s.reg7
      { s with reg0 := dec16 s.reg0, reg1 := s.reg7 }
      (by show dec16 s.reg0 = 3; rw [h0, dec16_four]) rfl h7
      (by show s.sp < 65536; omega) (by show 65536 ≤ s.sp + s.reg7; omega)
    refine ⟨n + 1, ?_⟩
    rw [along_dec _ _ n s (by omega) h1, hn]; simp
  | succ b ih =>
    intro s h0 h1 h7 hsp hsb
    have he1 : (enter s).reg1 = b := by
      show dec16 s.reg1 = b
      rw [h1, dec16_pos _ (by omega) (by omega)]; rfl
    have hesp : (enter s).sp = s.sp + 1 := by
      show inc16 s.sp = s.sp + 1
      unfold inc16; omega
    obtain ⟨n, hn⟩ := ih (enter s) h0 he1 h7 (by rw [hesp]; omega)
      (by rw [hesp]; show 65536 ≤ s.sp + 1 + b + s.reg7; omega)
    exact ⟨n + 1, along_enter_false _ _ n s (by omega) (by omega) hn⟩

theorem underflow_level5 : ∀ (k : Nat) (s : State), s.reg0 = 5 → s.reg1 = k →
    s.reg7 = 32764 → s.sp + k = 8 →
    ∃ n, along headDecOK popDecOK n s = false := by
  intro k
  induction k with
  | zero =>
    intro s h0 h1 h7 hsp
    obtain ⟨n, hn⟩ := underflow_level4 32764
      { s with reg0 := dec16 s.reg0, reg1 := s.reg7 }
      (by show dec16 s.reg0 = 4; rw [h0, dec16_five]) h7
      (by show s.reg7 < 65536; omega) (by show s.sp + 32764 < 65536; omega)
      (by show 65536 ≤ s.sp + 32764 + s.reg7; omega)
    refine ⟨n + 1, ?_⟩
    rw [along_dec _ _ n s (by omega) h1, hn]; simp
  | succ k ih =>
    intro s h0 h1 h7 hsp
    have he1 : (enter s).reg1 = k := by
      show dec16 s.reg1 = k
      rw [h1, dec16_pos _ (by omega) (by omega)]; rfl
    have hesp : (enter s).sp = s.sp + 1 := by
      show inc16 s.sp = s.sp + 1
      unfold inc16; omega
    obtain ⟨n, hn⟩ := ih (enter s) h0 he1 h7 (by rw [hesp]; omega)
    exact ⟨n + 1, along_enter_false _ _ n s (by omega) (by omega) hn⟩

/-- C15 fails on the code for `a = 5`, `b = 8`, `c = 32764`: the run of
`calculate(5, 8, 32764)` returns (with `reg0 = 32765`), but it is 65536 calls
deep: the deepest push wraps `sp` from 65535 to 0, and the pop that follows
applies `--sp` to a zero stack pointer.  The other decrements (`reg0--`,
`reg1--`, and the `- 1` on the popped value) are applied to positive values
in this run. -/
theorem sp_decrement_underflows (s : State) :
    ∃ n t, calculate n 5 8 32764 s = some t ∧ t.reg0 = 32765 ∧
      along headDecOK popDecOK n (setup 5 8 32764 s) = false ∧
      along headDecOK popValueDecOK n (setup 5 8 32764 s) = true := by
  obtain ⟨n, t, hrun, t0⟩ := calculate_5_8_deep s
  obtain ⟨m, hm⟩ := underflow_level5 8 (setup 5 8 32764 s) rfl rfl rfl rfl
  have hrun' : calculate (max n m) 5 8 32764 s = some t :=
    sub178b_v2_fuel_mono (Nat.le_max_left n m) hrun
  refine ⟨max n m, t, hrun', t0, along_false_mono _ _ (Nat.le_max_right n m) hm, ?_⟩
  exact along_value_decrements _ (setup 5 8 32764 s) t (show 5 < 65536 by omega)
    (show 8 < 65536 by omega) (show 32764 < 65536 by omega) (show 0 < 65536 by omega) hrun'

end Teleporter
